import Mathlib

/-!
Verification of the resilient data-acquisition layer of the
investment-buddy repository (Go).  The Go source is embedded shallowly:

* machine floats (`float64`) only ever flow through the functions modelled
  here (they are copied, never computed with), so they are modelled by `ℚ`;
* `int64` fields are modelled by `Int`;
* calls into the Go standard library (`cli.Do`, `time.Parse`, `time.Now`,
  `sort.Slice`) are external dependencies: they are modelled by explicit
  oracle/script parameters, or (for `sort.Slice`) by the contract the
  library documents together with an executable transcription of the
  library algorithm, used to evaluate concrete runs;
* fallible Go code returning `(T, error)` is modelled with `Except`.
-/

/-! ## HTTP retry client: makeAPIRequest

The Go function loops `for attempt := 0; attempt <= maxRetries; attempt++`.
Each iteration issues one HTTP request via `cli.Do`.  A transport error
returns immediately; a 429 status with `attempt < maxRetries` sleeps
`60 + 30*attempt` seconds and continues; any other outcome returns the
response.  The `return nil, fmt.Errorf(...)` after the loop is reached
only if the loop falls through.

The network is modelled by a script assigning to every attempt index the
outcome `cli.Do` produces on that attempt. -/

/-- Outcome of a single HTTP attempt as seen by `makeAPIRequest`: the
transport fails (`cli.Do` returns a non-nil error), or a response with the
given status code arrives. -/
inductive AttemptOutcome
  | transportErr
  | resp (status : Nat)
deriving DecidableEq, Repr

/-- Error results of `makeAPIRequest`: a wrapped transport error
(`执行 HTTP 请求失败`), or the post-loop failure
(`在 %d 次重试后仍然失败`). -/
inductive ReqError
  | transport
  | exhausted (maxRetries : Nat)
deriving DecidableEq, Repr

deriving instance DecidableEq for Except

/-- Observable trace of one run of `makeAPIRequest`: the value returned to
the caller (a response status or an error), the number of HTTP requests
issued, and the list of back-off sleeps (in seconds) in order. -/
structure ReqRun where
  result : Except ReqError Nat
  requests : Nat
  sleeps : List Nat
deriving DecidableEq, Repr

/-- Retry loop of `makeAPIRequest`, at loop counter `attempt` with
`remaining` iterations allowed.  `remaining` encodes the Go loop guard
`attempt <= maxRetries`: the wrapper starts the loop with
`remaining = maxRetries + 1`, and each iteration consumes one unit, so
`remaining = maxRetries + 1 - attempt` throughout and hitting `0` is
exactly the fall-through of the `for` loop (which returns the
`exhausted` error). -/
def makeAPIRequestLoop (script : Nat → AttemptOutcome) (maxRetries : Nat) :
    (attempt : Nat) → (remaining : Nat) → ReqRun
  | _, 0 => ⟨.error (.exhausted maxRetries), 0, []⟩
  | attempt, r + 1 =>
    match script attempt with
    | .transportErr => ⟨.error .transport, 1, []⟩
    | .resp s =>
      if s = 429 ∧ attempt < maxRetries then
        let rest := makeAPIRequestLoop script maxRetries (attempt + 1) r
        ⟨rest.result, rest.requests + 1, (60 + 30 * attempt) :: rest.sleeps⟩
      else
        ⟨.ok s, 1, []⟩

/-- Model of `makeAPIRequest url headers method jsonData maxRetries` run
against the attempt script `script`.  Only the retry control flow is
relevant to the claims; the URL, headers and body do not influence it. -/
def makeAPIRequest (script : Nat → AttemptOutcome) (maxRetries : Nat) : ReqRun :=
  makeAPIRequestLoop script maxRetries 0 (maxRetries + 1)

/-- Backoff schedule slept after `k` consecutive 429 responses starting at
attempt 0: 60, 90, 120, … seconds. -/
def backoffSleeps (k : Nat) : List Nat :=
  (List.range k).map (fun i => 60 + 30 * i)

lemma makeAPIRequestLoop_skip429 (script : Nat → AttemptOutcome)
    (maxRetries : Nat) (k : Nat) :
    ∀ a r, (∀ i, a ≤ i → i < a + k → script i = .resp 429) →
      a + k ≤ maxRetries →
      makeAPIRequestLoop script maxRetries a (k + r) =
        { result := (makeAPIRequestLoop script maxRetries (a + k) r).result
          requests := (makeAPIRequestLoop script maxRetries (a + k) r).requests + k
          sleeps := (List.range k).map (fun i => 60 + 30 * (a + i)) ++
            (makeAPIRequestLoop script maxRetries (a + k) r).sleeps } := by
  induction k with
  | zero =>
    intro a r _ _
    simp [makeAPIRequestLoop]
  | succ k ih =>
    intro a r hall hle
    have hstep : k + 1 + r = (k + r) + 1 := by omega
    rw [hstep]
    have ha : script a = .resp 429 := hall a le_rfl (by omega)
    have halt : a < maxRetries := by omega
    rw [makeAPIRequestLoop]
    rw [ha]
    dsimp only
    have hcond : (429 : Nat) = 429 ∧ a < maxRetries := ⟨rfl, halt⟩
    rw [if_pos hcond]
    rw [ih (a + 1) r (fun i h1 h2 => hall i (by omega) (by omega)) (by omega)]
    have harange : a + 1 + k = a + (k + 1) := by omega
    rw [harange]
    have hsl : (List.range (k + 1)).map (fun i => 60 + 30 * (a + i)) =
        (60 + 30 * a) :: (List.range k).map (fun i => 60 + 30 * (a + 1 + i)) := by
      rw [List.range_succ_eq_map]
      simp only [List.map_cons, List.map_map]
      refine congrArg₂ _ (by omega) ?_
      apply List.map_congr_left
      intro i _
      simp only [Function.comp_apply]
      omega
    rw [hsl]
    simp only [List.cons_append, ReqRun.mk.injEq, true_and, and_true]
    omega

/-- C1 amended, general form: if the server answers every attempt with
HTTP 429, `makeAPIRequest` issues exactly `maxRetries + 1` requests,
sleeps the full back-off schedule, and returns the final 429 response as
an ordinary response value — not the `exhausted` error, whose producing
branch (the code after the loop) is unreachable. -/
theorem makeAPIRequest_all429 (script : Nat → AttemptOutcome)
    (maxRetries : Nat)
    (hall : ∀ i, i ≤ maxRetries → script i = .resp 429) :
    makeAPIRequest script maxRetries =
      ⟨.ok 429, maxRetries + 1, backoffSleeps maxRetries⟩ := by
  unfold makeAPIRequest
  rw [makeAPIRequestLoop_skip429 script maxRetries maxRetries 0 1
    (fun i h1 h2 => hall i (by omega)) (by omega)]
  simp only [Nat.zero_add]
  rw [makeAPIRequestLoop]
  rw [hall maxRetries le_rfl]
  simp only [lt_irrefl, and_false, if_false]
  congr 1 <;> first
    | rfl
    | omega
    | simp [backoffSleeps]

/-- C1 counterexample: with `maxRetries = 3` and a server that answers
every attempt with HTTP 429, `makeAPIRequest` does issue exactly 4
requests, but it returns the final 429 response as an ordinary response
value, not the terminal `exhausted` error the claim describes (nor any
other error). -/
theorem makeAPIRequest_exhausted_unreachable :
    (makeAPIRequest (fun _ => AttemptOutcome.resp 429) 3).requests = 4 ∧
    (makeAPIRequest (fun _ => AttemptOutcome.resp 429) 3).result =
      Except.ok 429 ∧
    (makeAPIRequest (fun _ => AttemptOutcome.resp 429) 3).result ≠
      Except.error (ReqError.exhausted 3) ∧
    (makeAPIRequest (fun _ => AttemptOutcome.resp 429) 3).result ≠
      Except.error ReqError.transport := by
  decide

/-- Witness for `makeAPIRequest_all429` at `maxRetries = 3`. -/
theorem makeAPIRequest_all429_witness :
    makeAPIRequest (fun _ => AttemptOutcome.resp 429) 3 =
      ⟨Except.ok 429, 4, [60, 90, 120]⟩ := by
  rw [makeAPIRequest_all429 (fun _ => AttemptOutcome.resp 429) 3 (fun i _ => rfl)]
  decide

/-- C2: if the server answers the first `k ≤ maxRetries` attempts with
HTTP 429 and then produces some other outcome, `makeAPIRequest` sleeps
exactly `60 + 30*i` seconds after the i-th 429 (schedule 60, 90, 120, …),
returns a non-429 status immediately as that response with `k + 1`
requests issued, and aborts immediately with a transport error when
`cli.Do` fails. -/
theorem makeAPIRequest_backoff_schedule (script : Nat → AttemptOutcome)
    (maxRetries k : Nat)
    (h429 : ∀ i, i < k → script i = .resp 429)
    (hk : k ≤ maxRetries) :
    (∀ s, script k = .resp s → s ≠ 429 →
      makeAPIRequest script maxRetries = ⟨.ok s, k + 1, backoffSleeps k⟩) ∧
    (script k = .transportErr →
      makeAPIRequest script maxRetries =
        ⟨.error .transport, k + 1, backoffSleeps k⟩) := by
  have hbase : makeAPIRequest script maxRetries =
      { result := (makeAPIRequestLoop script maxRetries k (maxRetries - k + 1)).result
        requests :=
          (makeAPIRequestLoop script maxRetries k (maxRetries - k + 1)).requests + k
        sleeps := backoffSleeps k ++
          (makeAPIRequestLoop script maxRetries k (maxRetries - k + 1)).sleeps } := by
    unfold makeAPIRequest
    have hsplit : maxRetries + 1 = k + (maxRetries - k + 1) := by omega
    rw [hsplit]
    rw [makeAPIRequestLoop_skip429 script maxRetries k 0 (maxRetries - k + 1)
      (fun i h1 h2 => h429 i (by omega)) (by omega)]
    simp [backoffSleeps]
  constructor
  · intro s hs hneq
    rw [hbase]
    rw [makeAPIRequestLoop]
    rw [hs]
    dsimp only
    rw [if_neg (by simp [hneq])]
    dsimp only
    rw [List.append_nil]
    congr 1
    omega
  · intro hs
    rw [hbase]
    rw [makeAPIRequestLoop]
    rw [hs]
    dsimp only
    rw [List.append_nil]
    congr 1
    omega

/-- Witness for `makeAPIRequest_backoff_schedule`: two 429 responses
followed by a 200 with `maxRetries = 3` yields the 200 after sleeps of
60 and 90 seconds, with 3 requests issued. -/
theorem makeAPIRequest_backoff_schedule_witness :
    makeAPIRequest
        (fun i => if i < 2 then AttemptOutcome.resp 429 else AttemptOutcome.resp 200)
        3 =
      ⟨Except.ok 200, 3, [60, 90]⟩ := by
  have h := (makeAPIRequest_backoff_schedule
    (fun i => if i < 2 then AttemptOutcome.resp 429 else AttemptOutcome.resp 200)
    3 2 (fun i hi => by interval_cases i <;> rfl) (by omega)).1 200 rfl (by decide)
  rw [h]
  decide

/-! ## Response decoders: LineItem.UnmarshalJSON

A decoded JSON object is modelled as an association list of keys and
values.  The claims about `LineItem.UnmarshalJSON` quantify over payloads
with pairwise-distinct keys, where the order-sensitive aspects of the Go
`map[string]any` (duplicate keys keep the last binding) do not arise; the
model keeps the first binding (`List.lookup`) and preserves payload order
for the value bag. -/

/-- JSON values as far as the embedded decoders inspect them.  JSON
numbers decode to Go `float64`, modelled as `ℚ`. -/
inductive JVal
  | str (s : String)
  | num (q : ℚ)
  | bool (b : Bool)
  | null
deriving DecidableEq, Repr

/-- LineItem record: four fixed fields plus the open-ended `Data` bag of
the remaining keys. -/
structure LineItem where
  ticker : String
  reportPeriod : String
  period : String
  currency : String
  data : List (String × JVal)
deriving DecidableEq, Repr

/-- Go decoding of one `string`-typed struct field from an object: an
absent key leaves the zero value `""`, a string value is taken as-is, and
a value of any other JSON type is an unmarshal type error. -/
def fieldString (payload : List (String × JVal)) (key : String) :
    Except String String :=
  match payload.lookup key with
  | none => .ok ""
  | some (.str s) => .ok s
  | some _ => .error key

/-- Model of `delete(raw, k)` on the generic map decoded from the
payload. -/
def mapDelete (m : List (String × JVal)) (k : String) :
    List (String × JVal) :=
  m.filter (fun kv => kv.1 != k)

/-- Model of `LineItem.UnmarshalJSON`: decode the fixed-field shape
(the `Alias` pass), decode the payload again as a generic map (the `raw`
pass), remove the four known keys from the map and store the remainder in
`Data`. -/
def lineItemUnmarshalJSON (payload : List (String × JVal)) :
    Except String LineItem := do
  let t ← fieldString payload "ticker"
  let rp ← fieldString payload "report_period"
  let p ← fieldString payload "period"
  let c ← fieldString payload "currency"
  pure { ticker := t, reportPeriod := rp, period := p, currency := c,
         data := mapDelete (mapDelete (mapDelete (mapDelete payload
           "ticker") "report_period") "period") "currency" }

/-- C9: for every line-item payload carrying the four fixed keys with
string values, `LineItem.UnmarshalJSON` populates the four fixed fields
from those keys and sets the `Data` bag to exactly the remaining keys of
the payload. -/
theorem lineItemUnmarshalJSON_dynamic_fields
    (payload : List (String × JVal)) (t rp p c : String)
    (ht : payload.lookup "ticker" = some (.str t))
    (hrp : payload.lookup "report_period" = some (.str rp))
    (hp : payload.lookup "period" = some (.str p))
    (hc : payload.lookup "currency" = some (.str c)) :
    lineItemUnmarshalJSON payload =
      .ok { ticker := t, reportPeriod := rp, period := p, currency := c,
            data := payload.filter (fun kv => kv.1 != "ticker" &&
              kv.1 != "report_period" && kv.1 != "period" &&
              kv.1 != "currency") } := by
  unfold lineItemUnmarshalJSON fieldString
  rw [ht, hrp, hp, hc]
  simp only [bind, Except.bind, pure, Except.pure, mapDelete, List.filter_filter]
  congr 1
  simp only [LineItem.mk.injEq, true_and]
  apply List.filter_congr
  intro kv _
  cases h1 : kv.1 != "ticker" <;> cases h2 : kv.1 != "report_period" <;>
    cases h3 : kv.1 != "period" <;> cases h4 : kv.1 != "currency" <;> simp

/-- Witness for `lineItemUnmarshalJSON_dynamic_fields`: the concrete
payload from the spec yields the four fixed fields and a value bag of
exactly the `revenue` and `custom_metric` keys. -/
theorem lineItemUnmarshalJSON_dynamic_fields_witness :
    lineItemUnmarshalJSON
      [("ticker", JVal.str "AAPL"), ("report_period", JVal.str "2024-Q1"),
       ("period", JVal.str "q"), ("currency", JVal.str "USD"),
       ("revenue", JVal.num 1000), ("custom_metric", JVal.num 42)] =
      Except.ok
        { ticker := "AAPL", reportPeriod := "2024-Q1", period := "q",
          currency := "USD",
          data := [("revenue", JVal.num 1000), ("custom_metric", JVal.num 42)] } := by
  have h := lineItemUnmarshalJSON_dynamic_fields
    [("ticker", JVal.str "AAPL"), ("report_period", JVal.str "2024-Q1"),
     ("period", JVal.str "q"), ("currency", JVal.str "USD"),
     ("revenue", JVal.num 1000), ("custom_metric", JVal.num 42)]
    "AAPL" "2024-Q1" "q" "USD" (by decide) (by decide) (by decide) (by decide)
  rw [h]
  decide

/-! ## Financial metrics and the market-cap resolver

`tools.FinancialMetrics` (tools package) and `CompanyFacts` are decoded
records; their numeric fields are never computed with by the embedded
functions, only copied.  Pointer-typed fields (`*float64`) become
`Option ℚ`. -/

/-- Go float64 value carried (never computed with) by the records below,
modelled as an exact rational.  The wrapper keeps instance derivation for
the wide record types tractable. -/
structure Float64 where
  val : ℚ
deriving DecidableEq, Repr, Inhabited

/-- tools.FinancialMetrics record. -/
structure FinancialMetrics where
  ticker : String
  reportPeriod : String
  period : String
  currency : String
  marketCap : Float64
  enterpriseValue : Float64
  priceToEarningsRatio : Float64
  priceToBookRatio : Float64
  priceToSalesRatio : Float64
  enterpriseValueToEbitdaRatio : Float64
  enterpriseValueToRevenueRatio : Float64
  freeCashFlowYield : Float64
  pegRatio : Float64
  grossMargin : Float64
  operatingMargin : Option Float64
  netMargin : Option Float64
  returnOnEquity : Option Float64
  returnOnAssets : Option Float64
  returnOnInvestedCapital : Float64
  assetTurnover : Float64
  inventoryTurnover : Float64
  receivablesTurnover : Float64
  daysSalesOutstanding : Float64
  operatingCycle : Float64
  workingCapitalTurnover : Float64
  currentRatio : Option Float64
  quickRatio : Option Float64
  cashRatio : Option Float64
  operatingCashFlowRatio : Float64
  debtToEquity : Option Float64
  debtToAssets : Float64
  interestCoverage : Option Float64
  revenueGrowth : Float64
  earningsGrowth : Float64
  bookValueGrowth : Float64
  earningsPerShareGrowth : Float64
  freeCashFlowGrowth : Float64
  operatingIncomeGrowth : Float64
  ebitdaGrowth : Float64
  payoutRatio : Float64
  earningsPerShare : Float64
  bookValuePerShare : Float64
  freeCashFlowPerShare : Float64
deriving DecidableEq, Repr, Inhabited

/-- CompanyFacts record. -/
structure CompanyFacts where
  ticker : String
  name : String
  cik : String
  industry : String
  sector : String
  category : String
  exchange : String
  isActive : Bool
  listingDate : String
  location : String
  marketCap : Float64
  numberOfEmployees : Int
  secFilingsURL : String
  sicCode : String
  sicIndustry : String
  sicSector : String
  websiteURL : String
  weightedAverageShares : Int
deriving DecidableEq, Repr, Inhabited

/-- One HTTP exchange as the data-fetch functions observe it after
`makeAPIRequest` returns: a failed request (`makeAPIRequest` or the
transport returned an error), or a response with a status code, the raw
body text, whether `io.ReadAll` failed on the body, and the result of
JSON-decoding the body into the expected shape. -/
inductive HTTPResult (α : Type)
  | transportErr
  | resp (status : Nat) (rawBody : String) (readErr : Bool)
      (decoded : Except String α)

/-- Errors surfaced by the data-fetch functions: wrapped `makeAPIRequest`
failures (`API 请求失败`), non-200 statuses with ticker, code and raw
body (`获取数据错误`), body-read failures (`读取响应体失败`) and JSON
decode failures (`解析...失败`). -/
inductive FetchError
  | api
  | status (ticker : String) (code : Nat) (body : String)
  | readBody
  | decode
deriving DecidableEq, Repr

/-- Request parameters carried in the `financial-metrics` URL. -/
structure MetricsRequest where
  ticker : String
  reportPeriodLte : String
  limit : Nat
  period : String
deriving DecidableEq, Repr

/-- Model of `GetFinancialMetrics`: apply the `period`/`limit` defaults,
issue one request (the oracle maps the request parameters to the HTTP
exchange), fail on non-200 statuses, read and decode the body, and map an
empty decoded list to the empty result.  Returns the result together
with the request that was issued. -/
def GetFinancialMetrics
    (oracle : MetricsRequest → HTTPResult (List FinancialMetrics))
    (ticker endDate period : String) (limit : Nat) :
    Except FetchError (List FinancialMetrics) × MetricsRequest :=
  let period := if period = "" then "ttm" else period
  let limit := if limit = 0 then 10 else limit
  let req : MetricsRequest := ⟨ticker, endDate, limit, period⟩
  match oracle req with
  | .transportErr => (.error .api, req)
  | .resp status rawBody readErr decoded =>
    if status ≠ 200 then (.error (.status ticker status rawBody), req)
    else if readErr then (.error .readBody, req)
    else match decoded with
      | .error _ => (.error .decode, req)
      | .ok metrics => (.ok metrics, req)

/-- Which data-source path `GetMarketCap` took, and with which request
parameters. -/
inductive MarketCapPath
  | facts (ticker : String)
  | metrics (req : MetricsRequest)
deriving DecidableEq, Repr

/-- Model of `GetMarketCap`: when the requested `endDate` equals the
process wall-clock date `today` (`time.Now().Format("2006-01-02")`,
passed as a parameter), fetch company facts and return their market cap,
turning a non-200 status into `0` with no error (the printed notice is
dropped); otherwise call `GetFinancialMetrics` with period `"ttm"` and
limit `10` and return the market cap of the first record, or `0` when
the list is empty. -/
def GetMarketCap (factsOracle : String → HTTPResult CompanyFacts)
    (metricsOracle : MetricsRequest → HTTPResult (List FinancialMetrics))
    (today ticker endDate : String) :
    Except FetchError Float64 × MarketCapPath :=
  if endDate = today then
    match factsOracle ticker with
    | .transportErr => (.error .api, .facts ticker)
    | .resp status _rawBody readErr decoded =>
      if status ≠ 200 then (.ok ⟨0⟩, .facts ticker)
      else if readErr then (.error .readBody, .facts ticker)
      else match decoded with
        | .error _ => (.error .decode, .facts ticker)
        | .ok facts => (.ok facts.marketCap, .facts ticker)
  else
    match GetFinancialMetrics metricsOracle ticker endDate "ttm" 10 with
    | (.error e, req) => (.error e, .metrics req)
    | (.ok [], req) => (.ok ⟨0⟩, .metrics req)
    | (.ok (m :: _), req) => (.ok m.marketCap, .metrics req)

/-- C3 counterexample: on the "today" path an unreachable service (a
transport-level failure of the facts request) does not degrade softly to
zero — `GetMarketCap` propagates it as an error, contradicting the claim
that an unreachable facts response yields 0 with no error. -/
theorem GetMarketCap_facts_transport_error_propagates :
    (GetMarketCap (fun _ => HTTPResult.transportErr)
        (fun _ => HTTPResult.transportErr) "2024-06-01" "AAPL" "2024-06-01").1 =
      Except.error FetchError.api ∧
    (GetMarketCap (fun _ => HTTPResult.transportErr)
        (fun _ => HTTPResult.transportErr) "2024-06-01" "AAPL" "2024-06-01").1 ≠
      Except.ok ⟨0⟩ := by
  decide

/-- C3 amended: if `endDate` equals the wall-clock date, `GetMarketCap`
takes the company-facts path, where a non-200 facts response yields 0
with no error (soft degradation) but a transport failure propagates as
an error and a 200 response yields the decoded market cap; for any other
`endDate` it requests financial metrics with period `"ttm"` and limit 10
and returns the market cap of the first record, or 0 with no error when
the metrics list is empty. -/
theorem GetMarketCap_resolution
    (factsOracle : String → HTTPResult CompanyFacts)
    (metricsOracle : MetricsRequest → HTTPResult (List FinancialMetrics))
    (today ticker endDate : String) :
    (endDate = today →
      (GetMarketCap factsOracle metricsOracle today ticker endDate).2 =
        .facts ticker ∧
      (factsOracle ticker = .transportErr →
        (GetMarketCap factsOracle metricsOracle today ticker endDate).1 =
          .error .api) ∧
      (∀ status rawBody readErr decoded,
        factsOracle ticker = .resp status rawBody readErr decoded →
        status ≠ 200 →
        (GetMarketCap factsOracle metricsOracle today ticker endDate).1 =
          .ok ⟨0⟩) ∧
      (∀ rawBody facts,
        factsOracle ticker = .resp 200 rawBody false (.ok facts) →
        (GetMarketCap factsOracle metricsOracle today ticker endDate).1 =
          .ok facts.marketCap)) ∧
    (endDate ≠ today →
      (GetMarketCap factsOracle metricsOracle today ticker endDate).2 =
        .metrics ⟨ticker, endDate, 10, "ttm"⟩ ∧
      (∀ rawBody,
        metricsOracle ⟨ticker, endDate, 10, "ttm"⟩ =
          .resp 200 rawBody false (.ok []) →
        (GetMarketCap factsOracle metricsOracle today ticker endDate).1 =
          .ok ⟨0⟩) ∧
      (∀ rawBody m ms,
        metricsOracle ⟨ticker, endDate, 10, "ttm"⟩ =
          .resp 200 rawBody false (.ok (m :: ms)) →
        (GetMarketCap factsOracle metricsOracle today ticker endDate).1 =
          .ok m.marketCap)) := by
  constructor
  · intro heq
    unfold GetMarketCap
    rw [if_pos heq]
    refine ⟨?_, ?_, ?_, ?_⟩
    · cases hf : factsOracle ticker with
      | transportErr => rfl
      | resp status rawBody readErr decoded =>
        dsimp only
        split_ifs <;> first
          | rfl
          | (cases decoded <;> rfl)
    · intro hf
      rw [hf]
    · intro status rawBody readErr decoded hf hs
      rw [hf]
      simp [hs]
    · intro rawBody facts hf
      rw [hf]
      simp
  · intro hne
    unfold GetMarketCap
    rw [if_neg hne]
    have hreq : GetFinancialMetrics metricsOracle ticker endDate "ttm" 10 =
        (match metricsOracle ⟨ticker, endDate, 10, "ttm"⟩ with
          | .transportErr => (.error .api, ⟨ticker, endDate, 10, "ttm"⟩)
          | .resp status rawBody readErr decoded =>
            if status ≠ 200 then
              (.error (.status ticker status rawBody), ⟨ticker, endDate, 10, "ttm"⟩)
            else if readErr then (.error .readBody, ⟨ticker, endDate, 10, "ttm"⟩)
            else match decoded with
              | .error _ => (.error .decode, ⟨ticker, endDate, 10, "ttm"⟩)
              | .ok metrics => (.ok metrics, ⟨ticker, endDate, 10, "ttm"⟩)) := by
      unfold GetFinancialMetrics
      norm_num
    refine ⟨?_, ?_, ?_⟩
    · rw [hreq]
      cases hm : metricsOracle ⟨ticker, endDate, 10, "ttm"⟩ with
      | transportErr => rfl
      | resp status rawBody readErr decoded =>
        dsimp only
        split_ifs <;> first
          | rfl
          | (cases decoded with
              | error e => rfl
              | ok l => cases l <;> rfl)
    · intro rawBody hm
      rw [hreq, hm]
      simp
    · intro rawBody m ms hm
      rw [hreq, hm]
      simp

/-- Sample metrics record used to exercise the historical-metrics path. -/
def sampleMetrics : FinancialMetrics :=
  { (default : FinancialMetrics) with marketCap := ⟨42⟩ }

/-- Witness for `GetMarketCap_resolution`: a non-today `endDate` takes
the metrics path with period `ttm` and limit 10 and returns the market
cap of the first record. -/
theorem GetMarketCap_resolution_witness :
    (GetMarketCap (fun _ => HTTPResult.transportErr)
        (fun _ => HTTPResult.resp 200 "" false (Except.ok [sampleMetrics]))
        "2024-06-01" "AAPL" "2024-03-31").1 = Except.ok ⟨42⟩ ∧
    (GetMarketCap (fun _ => HTTPResult.transportErr)
        (fun _ => HTTPResult.resp 200 "" false (Except.ok [sampleMetrics]))
        "2024-06-01" "AAPL" "2024-03-31").2 =
      MarketCapPath.metrics ⟨"AAPL", "2024-03-31", 10, "ttm"⟩ := by
  have h := (GetMarketCap_resolution (fun _ => HTTPResult.transportErr)
    (fun _ => HTTPResult.resp 200 "" false (Except.ok [sampleMetrics]))
    "2024-06-01" "AAPL" "2024-03-31").2 (by decide)
  exact ⟨(h.2.2 "" sampleMetrics [] rfl).trans rfl, h.1⟩

/-! ## Series normalizer: PricesToDataFrame

`time.Time` values produced by `time.Parse` are modelled as instants on
an integer time line (`GoTime`); `date.Before` is `<`.  The two layout
parsers (`time.Parse(time.RFC3339, s)` and `time.Parse("2006-01-02", s)`)
are standard-library calls and enter the model as the parameters
`parseRFC3339` and `parseDateOnly` of type `String → Option GoTime`.

`sort.Slice` is a standard-library call as well.  Its documented contract
is that it sorts the slice by the supplied `less` function and that the
sort is *not* guaranteed to be stable; `sortSliceContract` states exactly
that contract (sorted output that is a permutation of the input), and
`goSortSlice` further below is an executable transcription of the
algorithm behind it (`pdqsort_func` of the Go runtime, used by
`sort.Slice` since Go 1.19), used to evaluate concrete runs. -/

/-- Instants produced by the time parsers (`time.Time` restricted to the
ordering the code uses). -/
abbrev GoTime := Int

/-- Price record (types.go). -/
structure Price where
  Open : Float64
  Close : Float64
  High : Float64
  Low : Float64
  Volume : Int
  Time : String
deriving DecidableEq, Repr, Inhabited

/-- PriceDataFrame: column-oriented projection. -/
structure PriceDataFrame where
  Dates : List GoTime
  Open : List Float64
  Close : List Float64
  High : List Float64
  Low : List Float64
  Volume : List Int
deriving DecidableEq, Repr, Inhabited

/-- The local `sortData` row used inside `PricesToDataFrame`. -/
structure SortData where
  date : GoTime
  Open : Float64
  Close : Float64
  High : Float64
  Low : Float64
  Volume : Int
deriving DecidableEq, Repr, Inhabited

/-- Timestamp parsing of one record: `time.Parse(time.RFC3339, t)` first,
and on failure `time.Parse("2006-01-02", t)`. -/
def parsePriceTime (parseRFC3339 parseDateOnly : String → Option GoTime)
    (s : String) : Option GoTime :=
  match parseRFC3339 s with
  | some d => some d
  | none => parseDateOnly s

/-- Parse-and-fill loop of `PricesToDataFrame`: produce one row per price
record in input order, aborting with the offending time string on the
first record whose timestamp matches neither format. -/
def buildRows (parseRFC3339 parseDateOnly : String → Option GoTime) :
    List Price → Except String (List SortData)
  | [] => .ok []
  | price :: rest =>
    match parsePriceTime parseRFC3339 parseDateOnly price.Time with
    | none => .error price.Time
    | some d =>
      match buildRows parseRFC3339 parseDateOnly rest with
      | .error e => .error e
      | .ok rows =>
        .ok (⟨d, price.Open, price.Close, price.High, price.Low,
          price.Volume⟩ :: rows)

/-- Write-back phase: the sorted rows laid out as parallel columns. -/
def tableOfRows (rows : List SortData) : PriceDataFrame :=
  ⟨rows.map (·.date), rows.map (·.Open), rows.map (·.Close),
    rows.map (·.High), rows.map (·.Low), rows.map (·.Volume)⟩

/-- The `less` closure handed to `sort.Slice`:
`data[i].date.Before(data[j].date)`. -/
def sortSliceLess (x y : SortData) : Bool := x.date < y.date

/-- Documented contract of `sort.Slice(data, less)`: the output is a
permutation of the input ordered by `less` (no adjacent pair in
decreasing order); stability is explicitly not guaranteed. -/
def sortSliceContract (input output : List SortData) : Prop :=
  output.Perm input ∧
  output.Sorted (fun x y => ¬ sortSliceLess y x = true)

/-- Model of `PricesToDataFrame` as a relation between the input price
list and the returned value: an empty input yields the empty table, a
timestamp matching neither format yields that error, and otherwise the
table consists of the parsed rows as reordered by `sort.Slice`
(constrained by its contract). -/
inductive PricesToDataFrameR
    (parseRFC3339 parseDateOnly : String → Option GoTime) :
    List Price → Except String PriceDataFrame → Prop
  | empty : PricesToDataFrameR parseRFC3339 parseDateOnly []
      (.ok ⟨[], [], [], [], [], []⟩)
  | parseFail (prices : List Price) (e : String) (hne : prices ≠ [])
      (hfail : buildRows parseRFC3339 parseDateOnly prices = .error e) :
      PricesToDataFrameR parseRFC3339 parseDateOnly prices (.error e)
  | sorted (prices : List Price) (rows out : List SortData)
      (hne : prices ≠ [])
      (hrows : buildRows parseRFC3339 parseDateOnly prices = .ok rows)
      (hsort : sortSliceContract rows out) :
      PricesToDataFrameR parseRFC3339 parseDateOnly prices
        (.ok (tableOfRows out))

lemma buildRows_length (p1 p2 : String → Option GoTime) :
    ∀ prices rows, buildRows p1 p2 prices = .ok rows →
      rows.length = prices.length := by
  intro prices
  induction prices with
  | nil =>
    intro rows h
    cases h
    rfl
  | cons price rest ih =>
    intro rows h
    unfold buildRows at h
    cases hp : parsePriceTime p1 p2 price.Time with
    | none => rw [hp] at h; cases h
    | some d =>
      rw [hp] at h
      cases hr : buildRows p1 p2 rest with
      | error e => rw [hr] at h; cases h
      | ok rows0 =>
        rw [hr] at h
        cases h
        simp [ih rows0 hr]

lemma buildRows_ok_of_parse (p1 p2 : String → Option GoTime) :
    ∀ prices,
      (∀ price ∈ prices, (parsePriceTime p1 p2 price.Time).isSome) →
      ∃ rows, buildRows p1 p2 prices = .ok rows := by
  intro prices
  induction prices with
  | nil => exact fun _ => ⟨[], rfl⟩
  | cons price rest ih =>
    intro hall
    have hp : (parsePriceTime p1 p2 price.Time).isSome :=
      hall price (List.mem_cons_self price rest)
    obtain ⟨d, hd⟩ := Option.isSome_iff_exists.mp hp
    obtain ⟨rows, hrows⟩ := ih (fun q hq => hall q (List.mem_cons_of_mem _ hq))
    refine ⟨⟨d, price.Open, price.Close, price.High, price.Low,
      price.Volume⟩ :: rows, ?_⟩
    unfold buildRows
    rw [hd, hrows]

lemma buildRows_error_of_find (p1 p2 : String → Option GoTime) :
    ∀ prices price,
      prices.find? (fun p => (parsePriceTime p1 p2 p.Time).isNone) =
        some price →
      buildRows p1 p2 prices = .error price.Time := by
  intro prices
  induction prices with
  | nil => intro price h; cases h
  | cons q rest ih =>
    intro price h
    rw [List.find?_cons] at h
    cases hq : parsePriceTime p1 p2 q.Time with
    | none =>
      rw [hq] at h
      simp only [Option.isNone_none] at h
      cases h
      unfold buildRows
      rw [hq]
    | some d =>
      rw [hq] at h
      simp only [Option.isNone_some] at h
      unfold buildRows
      rw [hq, ih price h]

/-- C4: for every run of `PricesToDataFrame` on records whose timestamps
all parse in one of the two accepted formats, the result is a table (no
error) whose `Dates` sequence is non-decreasing and whose every column
has the length of the input; the empty input yields the empty table with
no error. -/
theorem PricesToDataFrame_normalize
    (p1 p2 : String → Option GoTime) (prices : List Price)
    (result : Except String PriceDataFrame)
    (hR : PricesToDataFrameR p1 p2 prices result)
    (hparse : ∀ price ∈ prices, (parsePriceTime p1 p2 price.Time).isSome) :
    (∃ df, result = .ok df ∧
      df.Dates.Sorted (· ≤ ·) ∧
      df.Dates.length = prices.length ∧ df.Open.length = prices.length ∧
      df.Close.length = prices.length ∧ df.High.length = prices.length ∧
      df.Low.length = prices.length ∧ df.Volume.length = prices.length) ∧
    (prices = [] → result = .ok ⟨[], [], [], [], [], []⟩) := by
  cases hR with
  | empty =>
    exact ⟨⟨⟨[], [], [], [], [], []⟩, rfl, by simp, by simp, by simp,
      by simp, by simp, by simp, by simp⟩, fun _ => rfl⟩
  | parseFail prices e hne hfail =>
    exfalso
    obtain ⟨rows, hrows⟩ := buildRows_ok_of_parse p1 p2 prices hparse
    rw [hrows] at hfail
    cases hfail
  | sorted prices rows out hne hrows hsort =>
    have hlen : out.length = prices.length :=
      (hsort.1.length_eq).trans (buildRows_length p1 p2 prices rows hrows)
    refine ⟨⟨tableOfRows out, rfl, ?_, ?_, ?_, ?_, ?_, ?_, ?_⟩,
      fun h => absurd h hne⟩
    · have := hsort.2
      unfold tableOfRows
      refine List.Pairwise.map _ ?_ this
      intro x y hxy
      simpa [sortSliceLess, not_lt] using hxy
    all_goals simp [tableOfRows, hlen]

/-- C6: timestamps are parsed by trying the RFC 3339 layout first and the
date-only layout on failure, and a record whose timestamp matches neither
layout makes the whole conversion abort with that record's time string as
the error (the first such record decides the error; no table is
produced). -/
theorem PricesToDataFrame_parse_order_and_abort
    (p1 p2 : String → Option GoTime) (prices : List Price)
    (result : Except String PriceDataFrame)
    (hR : PricesToDataFrameR p1 p2 prices result) :
    (∀ s d, p1 s = some d → parsePriceTime p1 p2 s = some d) ∧
    (∀ s, p1 s = none → parsePriceTime p1 p2 s = p2 s) ∧
    (∀ price,
      prices.find? (fun p => (parsePriceTime p1 p2 p.Time).isNone) =
        some price →
      result = .error price.Time) := by
  refine ⟨fun s d h => by simp [parsePriceTime, h],
    fun s h => by simp [parsePriceTime, h], ?_⟩
  intro price hfind
  have herr := buildRows_error_of_find p1 p2 prices price hfind
  cases hR with
  | empty => cases hfind
  | parseFail prices e hne hfail =>
    rw [herr] at hfail
    cases hfail
    rfl
  | sorted prices rows out hne hrows hsort =>
    rw [herr] at hrows
    cases hrows

/-- Sample RFC 3339 parser instance used by witnesses (the theorems hold
for every parser pair). -/
def parseRFCW : String → Option GoTime := fun _ => none

/-- Sample date-only parser instance used by witnesses. -/
def parseDateW : String → Option GoTime := fun s =>
  if s = "2024-01-01" then some 20240101
  else if s = "2024-01-02" then some 20240102
  else none

/-- Sample price list used by the C4 witness (out of order on input). -/
def pricesW : List Price :=
  [⟨⟨1⟩, ⟨2⟩, ⟨3⟩, ⟨0⟩, 10, "2024-01-02"⟩,
   ⟨⟨4⟩, ⟨5⟩, ⟨6⟩, ⟨0⟩, 20, "2024-01-01"⟩]

/-- Rows parsed from `pricesW` in input order. -/
def rowsW : List SortData :=
  [⟨20240102, ⟨1⟩, ⟨2⟩, ⟨3⟩, ⟨0⟩, 10⟩,
   ⟨20240101, ⟨4⟩, ⟨5⟩, ⟨6⟩, ⟨0⟩, 20⟩]

/-- The rows of `pricesW` as ordered by the sort. -/
def outW : List SortData :=
  [⟨20240101, ⟨4⟩, ⟨5⟩, ⟨6⟩, ⟨0⟩, 20⟩,
   ⟨20240102, ⟨1⟩, ⟨2⟩, ⟨3⟩, ⟨0⟩, 10⟩]

/-- Witness for `PricesToDataFrame_normalize` on `pricesW`. -/
theorem PricesToDataFrame_normalize_witness :
    (tableOfRows outW).Dates.Sorted (· ≤ ·) ∧
    (tableOfRows outW).Dates.length = pricesW.length ∧
    (tableOfRows outW).Volume.length = pricesW.length := by
  have h := PricesToDataFrame_normalize parseRFCW parseDateW pricesW
    (Except.ok (tableOfRows outW))
    (PricesToDataFrameR.sorted pricesW rowsW outW (by decide) (by decide)
      ⟨by decide, by decide⟩)
    (by decide)
  obtain ⟨⟨df, hdf, hs, h1, h2, h3, h4, h5, h6⟩, -⟩ := h
  have hdf2 : tableOfRows outW = df := by injection hdf
  subst hdf2
  exact ⟨hs, h1, h6⟩

/-- Price record with an unparseable timestamp, for the C6 witness. -/
def priceBad : Price := ⟨⟨7⟩, ⟨8⟩, ⟨9⟩, ⟨0⟩, 30, "oops"⟩

/-- Sample price list whose second record fails both layouts. -/
def pricesW6 : List Price :=
  [⟨⟨1⟩, ⟨2⟩, ⟨3⟩, ⟨0⟩, 10, "2024-01-01"⟩, priceBad,
   ⟨⟨4⟩, ⟨5⟩, ⟨6⟩, ⟨0⟩, 20, "2024-01-02"⟩]

/-- Witness for `PricesToDataFrame_parse_order_and_abort` on `pricesW6`:
the first record failing both layouts decides the error of the whole
conversion. -/
theorem PricesToDataFrame_parse_order_and_abort_witness :
    pricesW6.find?
      (fun p => (parsePriceTime parseRFCW parseDateW p.Time).isNone) =
      some priceBad ∧
    (Except.error "oops" : Except String PriceDataFrame) =
      .error priceBad.Time := by
  refine ⟨by decide, ?_⟩
  exact (PricesToDataFrame_parse_order_and_abort parseRFCW parseDateW
    pricesW6 (.error "oops")
    (PricesToDataFrameR.parseFail pricesW6 "oops" (by decide)
      (by decide))).2.2 priceBad (by decide)

/-! ## Executable transcription of the Go runtime sort

`sort.Slice` dispatches to `pdqsort_func` (src/sort/zsortfunc.go,
Go 1.19 and later) with `limit = bits.Len(uint(length))`.  The functions
below transcribe that algorithm over a `List` with a `less` predicate;
loops carry explicit iteration budgets that match (or exceed) the loop
bounds of the original, and the top-level driver returns `none` when its
call budget runs out, so a `some` result is evidence the budget did not
alter the run.  The transcription is used only to evaluate concrete
runs; no claim-level theorem quantifies over it. -/

section GoSort

variable {α : Type} [Inhabited α]

/-- Read `data[i]`. -/
def aget (l : List α) (i : Nat) : α := l.getD i default

/-- Model of `data.Swap(i, j)`. -/
def aswap (l : List α) (i j : Nat) : List α :=
  let xi := aget l i
  let xj := aget l j
  (l.set i xj).set j xi

/-- Inner loop of `insertionSort_func`: move element `j` down while it is
less than its predecessor. -/
def insertionSortInner (less : α → α → Bool) :
    Nat → List α → Nat → Nat → List α
  | 0, l, _, _ => l
  | steps + 1, l, j, a =>
    if j > a ∧ less (aget l j) (aget l (j - 1)) then
      insertionSortInner less steps (aswap l j (j - 1)) (j - 1) a
    else l

/-- Outer loop of `insertionSort_func`, with `c` iterations left and the
current index `i`. -/
def insertionSortOuter (less : α → α → Bool) :
    Nat → List α → Nat → Nat → List α
  | 0, l, _, _ => l
  | c + 1, l, i, a =>
    insertionSortOuter less c (insertionSortInner less i l i a) (i + 1) a

/-- `insertionSort_func(data, a, b)`. -/
def insertionSort (less : α → α → Bool) (l : List α) (a b : Nat) : List α :=
  insertionSortOuter less (b - (a + 1)) l (a + 1) a

/-- Loop of `siftDown_func`; the root index strictly increases each
iteration, so a budget of `hi + 1` never binds. -/
def siftDownLoop (less : α → α → Bool) :
    Nat → List α → Nat → Nat → Nat → List α
  | 0, l, _, _, _ => l
  | f + 1, l, root, hi, first =>
    let child0 := 2 * root + 1
    if child0 ≥ hi then l
    else
      let child :=
        if child0 + 1 < hi ∧
            less (aget l (first + child0)) (aget l (first + child0 + 1)) then
          child0 + 1
        else child0
      if less (aget l (first + root)) (aget l (first + child)) = false then l
      else siftDownLoop less f (aswap l (first + root) (first + child))
        child hi first

/-- `siftDown_func(data, lo, hi, first)`. -/
def siftDown (less : α → α → Bool) (l : List α) (lo hi first : Nat) :
    List α :=
  siftDownLoop less (hi + 1) l lo hi first

/-- First loop of `heapSort_func`: build the heap, sifting down from
index `c - 1` to `0`. -/
def heapSortBuild (less : α → α → Bool) :
    Nat → List α → Nat → Nat → List α
  | 0, l, _, _ => l
  | c + 1, l, hi, first =>
    heapSortBuild less c (siftDown less l c hi first) hi first

/-- Second loop of `heapSort_func`: pop the maximum `c` times. -/
def heapSortPop (less : α → α → Bool) : Nat → List α → Nat → List α
  | 0, l, _ => l
  | c + 1, l, first =>
    heapSortPop less c (siftDown less (aswap l first (first + c)) 0 c first)
      first

/-- `heapSort_func(data, a, b)`. -/
def heapSort (less : α → α → Bool) (l : List α) (a b : Nat) : List α :=
  let first := a
  let hi := b - a
  heapSortPop less hi (heapSortBuild less ((hi - 1) / 2 + 1) l hi first)
    first

/-- `order2_func`: order two indices by the values they point at,
counting a swap. -/
def order2 (less : α → α → Bool) (l : List α) (a b swaps : Nat) :
    Nat × Nat × Nat :=
  if less (aget l b) (aget l a) then (b, a, swaps + 1) else (a, b, swaps)

/-- `median_func`: index of the median of three values. -/
def median (less : α → α → Bool) (l : List α) (a b c swaps : Nat) :
    Nat × Nat :=
  let (a1, b1, s1) := order2 less l a b swaps
  let (b2, _, s2) := order2 less l b1 c s1
  let (_, b3, s3) := order2 less l a1 b2 s2
  (b3, s3)

/-- `medianAdjacent_func`: median of `a-1, a, a+1`. -/
def medianAdjacent (less : α → α → Bool) (l : List α) (a swaps : Nat) :
    Nat × Nat :=
  median less l (a - 1) a (a + 1) swaps

/-- Sortedness hints of `choosePivot_func`. -/
inductive SortedHint
  | increasing
  | decreasing
  | unknown
deriving DecidableEq, Repr

/-- Map the swap count of `choosePivot_func` to its hint (`maxSwaps`
is `4 * 3`). -/
def pivotHint (j swaps : Nat) : Nat × SortedHint :=
  if swaps = 0 then (j, .increasing)
  else if swaps = 12 then (j, .decreasing)
  else (j, .unknown)

/-- `choosePivot_func(data, a, b)` (`shortestNinther = 50`). -/
def choosePivot (less : α → α → Bool) (l : List α) (a b : Nat) :
    Nat × SortedHint :=
  let length := b - a
  let i := a + length / 4 * 1
  let j := a + length / 4 * 2
  let k := a + length / 4 * 3
  if length ≥ 8 then
    if length ≥ 50 then
      let (i1, s1) := medianAdjacent less l i 0
      let (j1, s2) := medianAdjacent less l j s1
      let (k1, s3) := medianAdjacent less l k s2
      let (j2, s4) := median less l i1 j1 k1 s3
      pivotHint j2 s4
    else
      let (j2, s) := median less l i j k 0
      pivotHint j2 s
  else (j, .increasing)

/-- `reverseRange_func` loop. -/
def reverseRangeLoop : Nat → List α → Nat → Nat → List α
  | 0, l, _, _ => l
  | c + 1, l, i, j =>
    if i < j then reverseRangeLoop c (aswap l i j) (i + 1) (j - 1) else l

/-- `reverseRange_func(data, a, b)`. -/
def reverseRange (l : List α) (a b : Nat) : List α :=
  reverseRangeLoop (b - a) l a (b - 1)

/-- Scan of `partialInsertionSort_func`: advance `i` while the element is
not less than its predecessor. -/
def scanAsc (less : α → α → Bool) : Nat → List α → Nat → Nat → Nat
  | 0, _, i, _ => i
  | c + 1, l, i, b =>
    if i < b ∧ less (aget l i) (aget l (i - 1)) = false then
      scanAsc less c l (i + 1) b
    else i

/-- Downward shift loop of `partialInsertionSort_func`
(`for j := i-1; j >= 1; j--`). -/
def shiftDownLoop (less : α → α → Bool) : Nat → List α → Nat → List α
  | 0, l, _ => l
  | c + 1, l, j =>
    if j ≥ 1 then
      if less (aget l j) (aget l (j - 1)) = false then l
      else shiftDownLoop less c (aswap l j (j - 1)) (j - 1)
    else l

/-- Upward shift loop of `partialInsertionSort_func`
(`for j := i+1; j < b; j++`). -/
def shiftUpLoop (less : α → α → Bool) : Nat → List α → Nat → Nat → List α
  | 0, l, _, _ => l
  | c + 1, l, j, b =>
    if j < b then
      if less (aget l j) (aget l (j - 1)) = false then l
      else shiftUpLoop less c (aswap l j (j - 1)) (j + 1) b
    else l

/-- Step loop of `partialInsertionSort_func` (`maxSteps = 5`,
`shortestShifting = 50`); returns the array and whether the range ended
up sorted. -/
def partInsertionSortSteps (less : α → α → Bool) :
    Nat → List α → Nat → Nat → Nat → List α × Bool
  | 0, l, _, _, _ => (l, false)
  | c + 1, l, i, a, b =>
    let i := scanAsc less (b - i) l i b
    if i = b then (l, true)
    else if b - a < 50 then (l, false)
    else
      let l := aswap l i (i - 1)
      let l := if i - a ≥ 2 then shiftDownLoop less (i - 1) l (i - 1) else l
      let l := if b - i ≥ 2 then shiftUpLoop less (b - (i + 1)) l (i + 1) b
        else l
      partInsertionSortSteps less c l i a b

/-- `partialInsertionSort_func(data, a, b)`. -/
def partInsertionSort (less : α → α → Bool) (l : List α) (a b : Nat) :
    List α × Bool :=
  partInsertionSortSteps less 5 l (a + 1) a b

/-- One step of the xorshift generator used by `breakPatterns_func`,
on 64-bit words modelled as naturals mod `2 ^ 64`. -/
def xorshiftNext (r : Nat) : Nat :=
  let r := (r ^^^ (r <<< 13)) % 2 ^ 64
  let r := r ^^^ (r >>> 7)
  (r ^^^ (r <<< 17)) % 2 ^ 64

/-- `bits.Len`: number of bits of `n`. -/
def bitsLen (n : Nat) : Nat := if n = 0 then 0 else n.log2 + 1

/-- `breakPatterns_func(data, a, b)`: swap three elements near the middle
with pseudo-random positions (`nextPowerOfTwo` is `1 << bits.Len`). -/
def breakPatterns (l : List α) (a b : Nat) : List α :=
  let length := b - a
  if length ≥ 8 then
    let modulus := 2 ^ bitsLen length
    let idx := a + length / 4 * 2 - 1
    let r1 := xorshiftNext (length % 2 ^ 64)
    let o1 := r1 &&& (modulus - 1)
    let o1 := if o1 ≥ length then o1 - length else o1
    let l := aswap l (idx - 1) (a + o1)
    let r2 := xorshiftNext r1
    let o2 := r2 &&& (modulus - 1)
    let o2 := if o2 ≥ length then o2 - length else o2
    let l := aswap l idx (a + o2)
    let r3 := xorshiftNext r2
    let o3 := r3 &&& (modulus - 1)
    let o3 := if o3 ≥ length then o3 - length else o3
    aswap l (idx + 1) (a + o3)
  else l

/-- Scan `i` upward inside `partitionEqual_func`
(`for i <= j && !data.Less(a, i)`). -/
def peqScanI (less : α → α → Bool) : Nat → List α → Nat → Nat → Nat → Nat
  | 0, _, i, _, _ => i
  | c + 1, l, i, j, a =>
    if i ≤ j ∧ less (aget l a) (aget l i) = false then
      peqScanI less c l (i + 1) j a
    else i

/-- Scan `j` downward inside `partitionEqual_func`
(`for i <= j && data.Less(a, j)`). -/
def peqScanJ (less : α → α → Bool) : Nat → List α → Nat → Nat → Nat → Nat
  | 0, _, _, j, _ => j
  | c + 1, l, i, j, a =>
    if i ≤ j ∧ less (aget l a) (aget l j) then peqScanJ less c l i (j - 1) a
    else j

/-- Main loop of `partitionEqual_func`. -/
def partitionEqualLoop (less : α → α → Bool) :
    Nat → List α → Nat → Nat → Nat → List α × Nat
  | 0, l, i, _, _ => (l, i)
  | c + 1, l, i, j, a =>
    let i := peqScanI less (j + 1 - i) l i j a
    let j := peqScanJ less (j + 1 - i) l i j a
    if i > j then (l, i)
    else partitionEqualLoop less c (aswap l i j) (i + 1) (j - 1) a

/-- `partitionEqual_func(data, a, b, pivot)`. -/
def partitionEqual (less : α → α → Bool) (l : List α) (a b pivot : Nat) :
    List α × Nat :=
  partitionEqualLoop less b (aswap l a pivot) (a + 1) (b - 1) a

/-- Scan `i` upward inside `partition_func`
(`for i <= j && data.Less(i, a)`). -/
def partScanI (less : α → α → Bool) : Nat → List α → Nat → Nat → Nat → Nat
  | 0, _, i, _, _ => i
  | c + 1, l, i, j, a =>
    if i ≤ j ∧ less (aget l i) (aget l a) then partScanI less c l (i + 1) j a
    else i

/-- Scan `j` downward inside `partition_func`
(`for i <= j && !data.Less(j, a)`). -/
def partScanJ (less : α → α → Bool) : Nat → List α → Nat → Nat → Nat → Nat
  | 0, _, _, j, _ => j
  | c + 1, l, i, j, a =>
    if i ≤ j ∧ less (aget l j) (aget l a) = false then
      partScanJ less c l i (j - 1) a
    else j

/-- Main loop of `partition_func`. -/
def partitionLoop (less : α → α → Bool) :
    Nat → List α → Nat → Nat → Nat → List α × Nat
  | 0, l, _, j, _ => (l, j)
  | c + 1, l, i, j, a =>
    let i := partScanI less (j + 1 - i) l i j a
    let j := partScanJ less (j + 1 - i) l i j a
    if i > j then (l, j)
    else partitionLoop less c (aswap l i j) (i + 1) (j - 1) a

/-- `partition_func(data, a, b, pivot)`: returns the array, the final
pivot position, and whether the range was already partitioned. -/
def partition (less : α → α → Bool) (l : List α) (a b pivot : Nat) :
    List α × Nat × Bool :=
  let l := aswap l a pivot
  let i := a + 1
  let j := b - 1
  let i := partScanI less (j + 1 - i) l i j a
  let j := partScanJ less (j + 1 - i) l i j a
  if i > j then (aswap l j a, j, true)
  else
    let l := aswap l i j
    let (l, j2) := partitionLoop less b l (i + 1) (j - 1) a
    (aswap l j2 a, j2, false)

/-- `pdqsort_func(data, a, b, limit)` (`maxInsertion = 12`), with a call
budget; `none` means the budget ran out. -/
def pdqsortLoop (less : α → α → Bool) :
    Nat → List α → Nat → Nat → Nat → Bool → Bool → Option (List α)
  | 0, _, _, _, _, _, _ => none
  | f + 1, l, a, b, limit, wasBalanced, wasPartitioned =>
    let length := b - a
    if length ≤ 12 then some (insertionSort less l a b)
    else if limit = 0 then some (heapSort less l a b)
    else
      let (l, limit) :=
        if wasBalanced = false then (breakPatterns l a b, limit - 1)
        else (l, limit)
      let (pivot, hint) := choosePivot less l a b
      let (l, pivot, hint) :=
        if hint = SortedHint.decreasing then
          (reverseRange l a b, (b - 1) - (pivot - a), SortedHint.increasing)
        else (l, pivot, hint)
      let (l, stop) :=
        if wasBalanced = true ∧ wasPartitioned = true ∧
            hint = SortedHint.increasing then
          partInsertionSort less l a b
        else (l, false)
      if stop then some l
      else if a > 0 ∧ less (aget l (a - 1)) (aget l pivot) = false then
        let (l, mid) := partitionEqual less l a b pivot
        pdqsortLoop less f l mid b limit wasBalanced wasPartitioned
      else
        let (l, mid, alreadyPartitioned) := partition less l a b pivot
        let wasPartitioned := alreadyPartitioned
        let leftLen := mid - a
        let rightLen := b - mid
        let balanceThreshold := length / 8
        let wasBalanced := decide (min leftLen rightLen ≥ balanceThreshold)
        if leftLen < rightLen then
          match pdqsortLoop less f l a mid limit true true with
          | none => none
          | some l => pdqsortLoop less f l (mid + 1) b limit wasBalanced
              wasPartitioned
        else
          match pdqsortLoop less f l (mid + 1) b limit true true with
          | none => none
          | some l => pdqsortLoop less f l a mid limit wasBalanced
              wasPartitioned

/-- `sort.Slice(x, less)`: `pdqsort` over the whole slice with
`limit = bits.Len(uint(length))`. -/
def goSortSlice (less : α → α → Bool) (l : List α) : Option (List α) :=
  pdqsortLoop less (2 * l.length + 8) l 0 l.length (bitsLen l.length)
    true true

end GoSort

/-- Date-only parser instance used by the sort-stability analysis. -/
def parseDate13 : String → Option GoTime := fun s =>
  if s = "2024-01-01" then some 20240101
  else if s = "2024-01-03" then some 20240103
  else if s = "2024-01-04" then some 20240104
  else none

/-- A 13-record price list (volumes number the records 0 to 12; five
records share the timestamp 2024-01-01). -/
def prices13 : List Price :=
  [⟨⟨0⟩, ⟨0⟩, ⟨0⟩, ⟨0⟩, 0, "2024-01-01"⟩, ⟨⟨0⟩, ⟨0⟩, ⟨0⟩, ⟨0⟩, 1, "2024-01-03"⟩,
   ⟨⟨0⟩, ⟨0⟩, ⟨0⟩, ⟨0⟩, 2, "2024-01-03"⟩, ⟨⟨0⟩, ⟨0⟩, ⟨0⟩, ⟨0⟩, 3, "2024-01-03"⟩,
   ⟨⟨0⟩, ⟨0⟩, ⟨0⟩, ⟨0⟩, 4, "2024-01-04"⟩, ⟨⟨0⟩, ⟨0⟩, ⟨0⟩, ⟨0⟩, 5, "2024-01-04"⟩,
   ⟨⟨0⟩, ⟨0⟩, ⟨0⟩, ⟨0⟩, 6, "2024-01-01"⟩, ⟨⟨0⟩, ⟨0⟩, ⟨0⟩, ⟨0⟩, 7, "2024-01-01"⟩,
   ⟨⟨0⟩, ⟨0⟩, ⟨0⟩, ⟨0⟩, 8, "2024-01-03"⟩, ⟨⟨0⟩, ⟨0⟩, ⟨0⟩, ⟨0⟩, 9, "2024-01-04"⟩,
   ⟨⟨0⟩, ⟨0⟩, ⟨0⟩, ⟨0⟩, 10, "2024-01-01"⟩, ⟨⟨0⟩, ⟨0⟩, ⟨0⟩, ⟨0⟩, 11, "2024-01-01"⟩,
   ⟨⟨0⟩, ⟨0⟩, ⟨0⟩, ⟨0⟩, 12, "2024-01-03"⟩]

/-- The rows of `prices13` in input order. -/
def rows13 : List SortData :=
  [⟨20240101, ⟨0⟩, ⟨0⟩, ⟨0⟩, ⟨0⟩, 0⟩, ⟨20240103, ⟨0⟩, ⟨0⟩, ⟨0⟩, ⟨0⟩, 1⟩,
   ⟨20240103, ⟨0⟩, ⟨0⟩, ⟨0⟩, ⟨0⟩, 2⟩, ⟨20240103, ⟨0⟩, ⟨0⟩, ⟨0⟩, ⟨0⟩, 3⟩,
   ⟨20240104, ⟨0⟩, ⟨0⟩, ⟨0⟩, ⟨0⟩, 4⟩, ⟨20240104, ⟨0⟩, ⟨0⟩, ⟨0⟩, ⟨0⟩, 5⟩,
   ⟨20240101, ⟨0⟩, ⟨0⟩, ⟨0⟩, ⟨0⟩, 6⟩, ⟨20240101, ⟨0⟩, ⟨0⟩, ⟨0⟩, ⟨0⟩, 7⟩,
   ⟨20240103, ⟨0⟩, ⟨0⟩, ⟨0⟩, ⟨0⟩, 8⟩, ⟨20240104, ⟨0⟩, ⟨0⟩, ⟨0⟩, ⟨0⟩, 9⟩,
   ⟨20240101, ⟨0⟩, ⟨0⟩, ⟨0⟩, ⟨0⟩, 10⟩, ⟨20240101, ⟨0⟩, ⟨0⟩, ⟨0⟩, ⟨0⟩, 11⟩,
   ⟨20240103, ⟨0⟩, ⟨0⟩, ⟨0⟩, ⟨0⟩, 12⟩]

/-- What the Go runtime sort makes of `rows13` (records 0, 6, 7, 10, 11
share the oldest date and come out in the order 6, 11, 10, 0, 7). -/
def out13 : List SortData :=
  [⟨20240101, ⟨0⟩, ⟨0⟩, ⟨0⟩, ⟨0⟩, 6⟩, ⟨20240101, ⟨0⟩, ⟨0⟩, ⟨0⟩, ⟨0⟩, 11⟩,
   ⟨20240101, ⟨0⟩, ⟨0⟩, ⟨0⟩, ⟨0⟩, 10⟩, ⟨20240101, ⟨0⟩, ⟨0⟩, ⟨0⟩, ⟨0⟩, 0⟩,
   ⟨20240101, ⟨0⟩, ⟨0⟩, ⟨0⟩, ⟨0⟩, 7⟩, ⟨20240103, ⟨0⟩, ⟨0⟩, ⟨0⟩, ⟨0⟩, 3⟩,
   ⟨20240103, ⟨0⟩, ⟨0⟩, ⟨0⟩, ⟨0⟩, 8⟩, ⟨20240103, ⟨0⟩, ⟨0⟩, ⟨0⟩, ⟨0⟩, 2⟩,
   ⟨20240103, ⟨0⟩, ⟨0⟩, ⟨0⟩, ⟨0⟩, 1⟩, ⟨20240103, ⟨0⟩, ⟨0⟩, ⟨0⟩, ⟨0⟩, 12⟩,
   ⟨20240104, ⟨0⟩, ⟨0⟩, ⟨0⟩, ⟨0⟩, 5⟩, ⟨20240104, ⟨0⟩, ⟨0⟩, ⟨0⟩, ⟨0⟩, 4⟩,
   ⟨20240104, ⟨0⟩, ⟨0⟩, ⟨0⟩, ⟨0⟩, 9⟩]

/-- C5 counterexample: on `prices13` the sort of `PricesToDataFrame` is
not stable.  The run that Go `sort.Slice` (pdqsort, transcribed above as
`goSortSlice`) actually performs on the parsed rows satisfies the
`sort.Slice` contract and is therefore a run of the conversion, yet the
five records sharing the timestamp 2024-01-01 leave it in the order
6, 11, 10, 0, 7 instead of their input order 0, 6, 7, 10, 11. -/
theorem PricesToDataFrame_sort_unstable :
    buildRows parseRFCW parseDate13 prices13 = .ok rows13 ∧
    goSortSlice sortSliceLess rows13 = some out13 ∧
    sortSliceContract rows13 out13 ∧
    PricesToDataFrameR parseRFCW parseDate13 prices13
      (.ok (tableOfRows out13)) ∧
    out13.filter (fun r => r.date == 20240101) ≠
      rows13.filter (fun r => r.date == 20240101) := by
  refine ⟨by decide, by decide, ⟨by decide, by decide⟩, ?_, by decide⟩
  exact PricesToDataFrameR.sorted prices13 rows13 out13 (by decide)
    (by decide) ⟨by decide, by decide⟩

/-- C5 amended: the sort of `PricesToDataFrame` is total over all records
and orders the table non-decreasingly by timestamp, and every class of
records sharing one timestamp is preserved as a multiset (a permutation
of the input class); the relative input order inside such a class is not
guaranteed, since `sort.Slice` is not stable. -/
theorem PricesToDataFrame_sort_ties (rows out : List SortData)
    (h : sortSliceContract rows out) :
    (tableOfRows out).Dates.Sorted (· ≤ ·) ∧
    ∀ d : GoTime, (out.filter (fun r => r.date == d)).Perm
      (rows.filter (fun r => r.date == d)) := by
  constructor
  · have hp := h.2
    unfold tableOfRows
    refine List.Pairwise.map _ ?_ hp
    intro x y hxy
    simpa [sortSliceLess, not_lt] using hxy
  · intro d
    exact h.1.filter _

/-- Witness for `PricesToDataFrame_sort_ties` on the two-record sample. -/
theorem PricesToDataFrame_sort_ties_witness :
    (tableOfRows outW).Dates.Sorted (· ≤ ·) ∧
    (outW.filter (fun r => r.date == 20240101)).Perm
      (rowsW.filter (fun r => r.date == 20240101)) := by
  have h := PricesToDataFrame_sort_ties rowsW outW ⟨by decide, by decide⟩
  exact ⟨h.1, h.2 20240101⟩

/-! ## Paginated aggregators: GetInsiderTrades and GetCompanyNews

Both functions run the same backward-walking pagination loop over their
record type; the loop is embedded once, parameterized by the record type
and its date field, and instantiated twice.  The server is modelled as a
function from the request parameters carried in the URL to the HTTP
exchange.  The loop of the source has no termination guarantee, so the
model carries a fuel budget and returns `none` when it runs out. -/

/-- InsiderTrade record. -/
structure InsiderTrade where
  Ticker : String
  Issuer : Option String
  Name : Option String
  Title : Option String
  IsBoardDirector : Option Bool
  TransactionDate : Option String
  TransactionShares : Option Float64
  TransactionPricePerShare : Option Float64
  TransactionValue : Option Float64
  SharesOwnedBeforeTransaction : Option Float64
  SharesOwnedAfterTransaction : Option Float64
  SecurityTitle : Option String
  FilingDate : String
deriving DecidableEq, Repr, Inhabited

/-- tools.CompanyNews record. -/
structure CompanyNews where
  ID : String
  Title : String
  Summary : String
  URL : String
  Source : String
  Category : String
  DateTime : String
deriving DecidableEq, Repr, Inhabited

/-- Query parameters carried in one page request URL: the date-upper
parameter (`filing_date_lte` / `end_date`), the optional date-lower
parameter (`filing_date_gte` / `start_date`, appended only when the
caller supplied a start date), and the page limit. -/
structure PageRequest where
  ticker : String
  dateLte : String
  dateGte : Option String
  limit : Nat
deriving DecidableEq, Repr

/-- Observable trace of one aggregator run: the value returned to the
caller, every request issued (in order), and every successfully decoded
page (in order). -/
structure PageRun (α : Type) where
  result : Except FetchError (List α)
  requests : List PageRequest
  pages : List (List α)
deriving DecidableEq

/-- Lexicographic comparison of character lists, mirroring the byte-wise
string comparison of the Go runtime (the strings compared here are ASCII
dates). -/
def charListLt : List Char → List Char → Bool
  | [], [] => false
  | [], _ :: _ => true
  | _ :: _, [] => false
  | a :: as, b :: bs =>
    if a < b then true else if b < a then false else charListLt as bs

/-- Go `s < t` on strings. -/
def goStrLt (a b : String) : Bool := charListLt a.data b.data

/-- Go `s <= t` on strings. -/
def goStrLe (a b : String) : Bool := !goStrLt b a

/-- Minimum date of a page: start from the first record and keep any
strictly smaller date (Go string comparison). -/
def minDateOf {α : Type} (dateOf : α → String) (x : α) (rest : List α) :
    String :=
  rest.foldl (fun m r => if goStrLt (dateOf r) m then dateOf r else m)
    (dateOf x)

/-- Characters before the first `T`. -/
def takeUntilT : List Char → List Char
  | [] => []
  | c :: cs => if c = 'T' then [] else c :: takeUntilT cs

/-- Strip a time-of-day component: everything before the first `T`
(`strings.Split(minDate, "T")[0]` when a `T` occurs, identity
otherwise). -/
def stripTime (s : String) : String := ⟨takeUntilT s.data⟩

/-- The pagination loop shared by `GetInsiderTrades` and
`GetCompanyNews`.  One iteration: build the URL from the current end
cursor, issue the request, fail the whole aggregation on a non-200
status, a read failure or a decode failure, stop on an empty page,
append the page, stop when no start date was supplied or the page was
short, otherwise advance the cursor to the stripped minimum page date
and stop when it has reached or passed the start date. -/
def paginateLoop {α : Type} (dateOf : α → String)
    (oracle : PageRequest → HTTPResult (List α)) (ticker : String)
    (startDate : Option String) (startDateStr : String) (limit : Nat) :
    Nat → String → List α → List PageRequest → List (List α) →
    Option (PageRun α)
  | 0, _, _, _, _ => none
  | fuel + 1, currentEndDate, acc, reqs, pages =>
    let req : PageRequest := ⟨ticker, currentEndDate,
      if startDate.isSome then some startDateStr else none, limit⟩
    match oracle req with
    | .transportErr => some ⟨.error .api, reqs ++ [req], pages⟩
    | .resp status rawBody readErr decoded =>
      if status ≠ 200 then
        some ⟨.error (.status ticker status rawBody), reqs ++ [req], pages⟩
      else if readErr then some ⟨.error .readBody, reqs ++ [req], pages⟩
      else match decoded with
        | .error _ => some ⟨.error .decode, reqs ++ [req], pages⟩
        | .ok page =>
          match page with
          | [] => some ⟨.ok acc, reqs ++ [req], pages ++ [page]⟩
          | x :: rest =>
            let acc := acc ++ page
            if startDate.isNone ∨ page.length < limit then
              some ⟨.ok acc, reqs ++ [req], pages ++ [page]⟩
            else
              let minD := stripTime (minDateOf dateOf x rest)
              match startDate with
              | some s =>
                if goStrLe minD s then
                  some ⟨.ok acc, reqs ++ [req], pages ++ [page]⟩
                else
                  paginateLoop dateOf oracle ticker startDate startDateStr
                    limit fuel minD acc (reqs ++ [req]) (pages ++ [page])
              | none =>
                paginateLoop dateOf oracle ticker startDate startDateStr
                  limit fuel minD acc (reqs ++ [req]) (pages ++ [page])

/-- Model of `GetInsiderTrades`: apply the `limit` default, compute the
start-date string (`"none"` unless no start date was supplied, in which
case the formatted `time.Now().AddDate(0, 0, -30)` passed here as
`nowMinus30`), and run the pagination loop from `endDate`. -/
def GetInsiderTrades (oracle : PageRequest → HTTPResult (List InsiderTrade))
    (nowMinus30 ticker endDate : String) (startDate : Option String)
    (limit fuel : Nat) : Option (PageRun InsiderTrade) :=
  let limit := if limit = 0 then 1000 else limit
  let startDateStr := if startDate.isNone then nowMinus30 else "none"
  paginateLoop (·.FilingDate) oracle ticker startDate startDateStr limit
    fuel endDate [] [] []

/-- Model of `GetCompanyNews`: same loop over news records, with the
unbounded-mode start string computed from `time.Now().AddDate(0, 0, 30)`
(passed here as `nowPlus30`). -/
def GetCompanyNews (oracle : PageRequest → HTTPResult (List CompanyNews))
    (nowPlus30 ticker endDate : String) (startDate : Option String)
    (limit fuel : Nat) : Option (PageRun CompanyNews) :=
  let limit := if limit = 0 then 1000 else limit
  let startDateStr := if startDate.isNone then nowPlus30 else "none"
  paginateLoop (·.DateTime) oracle ticker startDate startDateStr limit
    fuel endDate [] [] []

/-- Client-side cursor computed from a non-empty page: the minimum record
date with any time-of-day stripped. -/
def pageCursor {α : Type} (dateOf : α → String) (page : List α) : String :=
  match page with
  | [] => ""
  | x :: rest => stripTime (minDateOf dateOf x rest)

/-- Stop condition of bounded-mode pagination at one consumed page:
the page is empty, or shorter than the (effective) limit, or its cursor
has reached or passed the start date. -/
abbrev stopCond {α : Type} (dateOf : α → String) (limit : Nat) (s : String)
    (page : List α) : Prop :=
  page = [] ∨ page.length < limit ∨ goStrLe (pageCursor dateOf page) s = true

/-- Bounded-mode runs stop exactly at the stop condition: a normally
completed run consumed zero or more pages violating it and one final
page satisfying it, and a run aborted by a request error consumed only
pages violating it. -/
abbrev pagesStopSpec {α : Type} (dateOf : α → String) (limit : Nat)
    (s : String) (run : PageRun α) : Prop :=
  (∀ v, run.result = .ok v → ∃ init last, run.pages = init ++ [last] ∧
    stopCond dateOf limit s last ∧ ∀ p ∈ init, ¬ stopCond dateOf limit s p) ∧
  (∀ e, run.result = .error e → ∀ p ∈ run.pages, ¬ stopCond dateOf limit s p)

lemma paginateLoop_gte {α : Type} (dateOf : α → String)
    (oracle : PageRequest → HTTPResult (List α)) (ticker s sds : String)
    (limit : Nat) :
    ∀ fuel cur acc reqs pages run,
      paginateLoop dateOf oracle ticker (some s) sds limit fuel cur acc
        reqs pages = some run →
      (∀ req ∈ reqs, req.dateGte = some sds) →
      ∀ req ∈ run.requests, req.dateGte = some sds := by
  intro fuel
  induction fuel with
  | zero =>
    intro cur acc reqs pages run h _
    cases h
  | succ fuel ih =>
    intro cur acc reqs pages run h hinv
    rw [paginateLoop] at h
    simp only [Option.isSome_some, Option.isNone_some, eq_self_iff_true,
      if_true, Bool.false_eq_true, false_or] at h
    have hnew : ∀ req ∈
        reqs ++ [(⟨ticker, cur, some sds, limit⟩ : PageRequest)],
        req.dateGte = some sds := by
      intro req hr
      rcases List.mem_append.mp hr with hl | hr2
      · exact hinv req hl
      · rcases List.mem_singleton.mp hr2 with rfl
        rfl
    revert h
    cases ho : oracle ⟨ticker, cur, some sds, limit⟩ with
    | transportErr =>
      intro h
      cases h
      exact hnew
    | resp status rawBody readErr decoded =>
      intro h
      dsimp only at h
      by_cases hs : status ≠ 200
      · rw [if_pos hs] at h
        cases h
        exact hnew
      · rw [if_neg hs] at h
        cases readErr with
        | true =>
          simp only [if_true] at h
          cases h
          exact hnew
        | false =>
          simp only [Bool.false_eq_true, if_false] at h
          cases decoded with
          | error e =>
            cases h
            exact hnew
          | ok page =>
            cases page with
            | nil =>
              cases h
              exact hnew
            | cons x rest =>
              dsimp only at h
              by_cases hlen : (x :: rest).length < limit
              · rw [if_pos hlen] at h
                cases h
                exact hnew
              · rw [if_neg hlen] at h
                by_cases hle : goStrLe (stripTime (minDateOf dateOf x rest)) s = true
                · rw [if_pos hle] at h
                  cases h
                  exact hnew
                · rw [if_neg hle] at h
                  exact ih _ _ _ _ _ h hnew

/-- C10: whenever a start date is supplied, every request URL issued by
`GetInsiderTrades` or `GetCompanyNews` carries the literal string
`"none"` as its start-date query parameter (`filing_date_gte` /
`start_date`): the actual date string is computed only in the
nil-start-date branch, so the initial value `"none"` is what gets
appended. -/
theorem pagination_startDate_param_is_none
    (oT : PageRequest → HTTPResult (List InsiderTrade))
    (oN : PageRequest → HTTPResult (List CompanyNews))
    (nowT nowN ticker endDate s : String) (limit fuel : Nat) :
    (∀ run, GetInsiderTrades oT nowT ticker endDate (some s) limit fuel =
        some run →
      ∀ req ∈ run.requests, req.dateGte = some "none") ∧
    (∀ run, GetCompanyNews oN nowN ticker endDate (some s) limit fuel =
        some run →
      ∀ req ∈ run.requests, req.dateGte = some "none") := by
  constructor
  · intro run h
    unfold GetInsiderTrades at h
    simp only [Option.isNone_some, Bool.false_eq_true, if_false] at h
    exact paginateLoop_gte _ oT ticker s "none" _ fuel endDate [] [] [] run h
      (by intro req hr; cases hr)
  · intro run h
    unfold GetCompanyNews at h
    simp only [Option.isNone_some, Bool.false_eq_true, if_false] at h
    exact paginateLoop_gte _ oN ticker s "none" _ fuel endDate [] [] [] run h
      (by intro req hr; cases hr)

/-- Witness for `pagination_startDate_param_is_none`: a one-page bounded
run issues exactly one request, and its `filing_date_gte` parameter is
the literal `"none"`, not the supplied start date `2024-01-01`. -/
theorem pagination_startDate_param_is_none_witness :
    GetInsiderTrades (fun _ => HTTPResult.resp 200 "" false (.ok []))
        "2024-05-02" "AAPL" "2024-06-01" (some "2024-01-01") 0 5 =
      some ⟨.ok [], [⟨"AAPL", "2024-06-01", some "none", 1000⟩], [[]]⟩ ∧
    (⟨"AAPL", "2024-06-01", some "none", 1000⟩ : PageRequest).dateGte =
      some "none" := by
  refine ⟨by decide, ?_⟩
  exact (pagination_startDate_param_is_none
    (fun _ => HTTPResult.resp 200 "" false (.ok []))
    (fun _ => HTTPResult.resp 200 "" false (.ok []))
    "2024-05-02" "2024-07-01" "AAPL" "2024-06-01" "2024-01-01" 0 5).1
    ⟨.ok [], [⟨"AAPL", "2024-06-01", some "none", 1000⟩], [[]]⟩
    (by decide) ⟨"AAPL", "2024-06-01", some "none", 1000⟩ (by decide)

lemma paginateLoop_unbounded {α : Type} (dateOf : α → String)
    (oracle : PageRequest → HTTPResult (List α)) (ticker sds : String)
    (limit : Nat) (fuel : Nat) (cur : String) (acc : List α)
    (reqs : List PageRequest) (pages : List (List α)) (run : PageRun α)
    (h : paginateLoop dateOf oracle ticker none sds limit (fuel + 1) cur
      acc reqs pages = some run) :
    run.requests = reqs ++ [⟨ticker, cur, none, limit⟩] ∧
    (∀ page, run.pages = pages ++ [page] → run.result = .ok (acc ++ page)) := by
  rw [paginateLoop] at h
  simp only [Option.isSome_none, Bool.false_eq_true, if_false,
    Option.isNone_none, eq_self_iff_true, true_or, if_true] at h
  have hlenne : ∀ page : List α, pages ≠ pages ++ [page] := by
    intro page hp
    have := congrArg List.length hp
    simp at this
  revert h
  cases ho : oracle ⟨ticker, cur, none, limit⟩ with
  | transportErr =>
    intro h
    cases h
    exact ⟨rfl, fun page hp => absurd hp (hlenne page)⟩
  | resp status rawBody readErr decoded =>
    intro h
    dsimp only at h
    by_cases hs : status ≠ 200
    · rw [if_pos hs] at h
      cases h
      exact ⟨rfl, fun page hp => absurd hp (hlenne page)⟩
    · rw [if_neg hs] at h
      cases readErr with
      | true =>
        simp only [if_true] at h
        cases h
        exact ⟨rfl, fun page hp => absurd hp (hlenne page)⟩
      | false =>
        simp only [Bool.false_eq_true, if_false] at h
        cases decoded with
        | error e =>
          cases h
          exact ⟨rfl, fun page hp => absurd hp (hlenne page)⟩
        | ok page =>
          cases page with
          | nil =>
            cases h
            refine ⟨rfl, fun page hp => ?_⟩
            have := List.append_cancel_left hp
            cases this
            simp
          | cons x rest =>
            dsimp only at h
            cases h
            refine ⟨rfl, fun page hp => ?_⟩
            have := List.append_cancel_left hp
            cases this
            rfl

lemma paginateLoop_stopSpec {α : Type} (dateOf : α → String)
    (oracle : PageRequest → HTTPResult (List α)) (ticker s sds : String)
    (limit : Nat) :
    ∀ fuel cur acc reqs pages run,
      paginateLoop dateOf oracle ticker (some s) sds limit fuel cur acc
        reqs pages = some run →
      (∀ p ∈ pages, ¬ stopCond dateOf limit s p) →
      pagesStopSpec dateOf limit s run := by
  intro fuel
  induction fuel with
  | zero =>
    intro cur acc reqs pages run h _
    cases h
  | succ fuel ih =>
    intro cur acc reqs pages run h hinv
    rw [paginateLoop] at h
    simp only [Option.isSome_some, Option.isNone_some, eq_self_iff_true,
      if_true, Bool.false_eq_true, false_or] at h
    revert h
    cases ho : oracle ⟨ticker, cur, some sds, limit⟩ with
    | transportErr =>
      intro h
      cases h
      exact ⟨(fun v hv => nomatch hv), fun e _ => hinv⟩
    | resp status rawBody readErr decoded =>
      intro h
      dsimp only at h
      by_cases hs : status ≠ 200
      · rw [if_pos hs] at h
        cases h
        exact ⟨(fun v hv => nomatch hv), fun e _ => hinv⟩
      · rw [if_neg hs] at h
        cases readErr with
        | true =>
          simp only [if_true] at h
          cases h
          exact ⟨(fun v hv => nomatch hv), fun e _ => hinv⟩
        | false =>
          simp only [Bool.false_eq_true, if_false] at h
          cases decoded with
          | error e =>
            cases h
            exact ⟨(fun v hv => nomatch hv), fun e _ => hinv⟩
          | ok page =>
            cases page with
            | nil =>
              cases h
              refine ⟨fun v hv => ⟨pages, [], rfl, Or.inl rfl, hinv⟩,
                fun e he => by cases he⟩
            | cons x rest =>
              dsimp only at h
              by_cases hlen : (x :: rest).length < limit
              · rw [if_pos hlen] at h
                cases h
                exact ⟨fun v hv => ⟨pages, x :: rest, rfl,
                  Or.inr (Or.inl hlen), hinv⟩, fun e he => by cases he⟩
              · rw [if_neg hlen] at h
                by_cases hle : goStrLe (stripTime (minDateOf dateOf x rest)) s = true
                · rw [if_pos hle] at h
                  cases h
                  exact ⟨fun v hv => ⟨pages, x :: rest, rfl,
                    Or.inr (Or.inr hle), hinv⟩, fun e he => by cases he⟩
                · rw [if_neg hle] at h
                  refine ih _ _ _ _ _ h ?_
                  intro p hp
                  rcases List.mem_append.mp hp with hl | hr
                  · exact hinv p hl
                  · rcases List.mem_singleton.mp hr with rfl
                    intro hstop
                    rcases hstop with h1 | h2 | h3
                    · cases h1
                    · exact hlen h2
                    · exact hle h3

/-- C7: in unbounded mode (no start date) `GetInsiderTrades` and
`GetCompanyNews` issue exactly one page request and return its records
as-is regardless of page size; in bounded mode (a start date supplied)
the pagination loop stops exactly when a page is empty, or shorter than
the (default-adjusted) limit, or its minimum date — time of day
stripped — has reached or passed the start date. -/
theorem pagination_stop_conditions
    (oT : PageRequest → HTTPResult (List InsiderTrade))
    (oN : PageRequest → HTTPResult (List CompanyNews))
    (nowT nowN ticker endDate s : String) (limit fuel : Nat) :
    (∀ run, GetInsiderTrades oT nowT ticker endDate none limit fuel =
        some run →
      run.requests.length = 1 ∧
      ∀ page, run.pages = [page] → run.result = .ok page) ∧
    (∀ run, GetCompanyNews oN nowN ticker endDate none limit fuel =
        some run →
      run.requests.length = 1 ∧
      ∀ page, run.pages = [page] → run.result = .ok page) ∧
    (∀ run, GetInsiderTrades oT nowT ticker endDate (some s) limit fuel =
        some run →
      pagesStopSpec (·.FilingDate) (if limit = 0 then 1000 else limit) s
        run) ∧
    (∀ run, GetCompanyNews oN nowN ticker endDate (some s) limit fuel =
        some run →
      pagesStopSpec (·.DateTime) (if limit = 0 then 1000 else limit) s
        run) := by
  refine ⟨?_, ?_, ?_, ?_⟩
  · intro run h
    unfold GetInsiderTrades at h
    cases fuel with
    | zero => cases h
    | succ fuel =>
      have h2 := paginateLoop_unbounded _ oT ticker nowT _ fuel endDate []
        [] [] run h
      refine ⟨by rw [h2.1]; rfl, fun page hp => ?_⟩
      have := h2.2 page (by simpa using hp)
      simpa using this
  · intro run h
    unfold GetCompanyNews at h
    cases fuel with
    | zero => cases h
    | succ fuel =>
      have h2 := paginateLoop_unbounded _ oN ticker nowN _ fuel endDate []
        [] [] run h
      refine ⟨by rw [h2.1]; rfl, fun page hp => ?_⟩
      have := h2.2 page (by simpa using hp)
      simpa using this
  · intro run h
    unfold GetInsiderTrades at h
    simp only [Option.isNone_some, Bool.false_eq_true, if_false] at h
    exact paginateLoop_stopSpec _ oT ticker s "none" _ fuel endDate [] []
      [] run h (by intro p hp; cases hp)
  · intro run h
    unfold GetCompanyNews at h
    simp only [Option.isNone_some, Bool.false_eq_true, if_false] at h
    exact paginateLoop_stopSpec _ oN ticker s "none" _ fuel endDate [] []
      [] run h (by intro p hp; cases hp)

/-- Insider-trade record with the given filing date and no optional
fields, for witnesses. -/
def sampleTrade (d : String) : InsiderTrade :=
  ⟨"AAPL", none, none, none, none, none, none, none, none, none, none,
    none, d⟩

/-- A three-record page used by the C7 witness. -/
def tradePage3 : List InsiderTrade :=
  [sampleTrade "2024-05-03", sampleTrade "2024-05-02",
   sampleTrade "2024-05-01"]

/-- Witness for `pagination_stop_conditions`: an unbounded-mode run with
`limit = 2` against a server page of three records issues exactly one
request and returns the oversized page as-is. -/
theorem pagination_stop_conditions_witness :
    GetInsiderTrades (fun _ => HTTPResult.resp 200 "" false (.ok tradePage3))
        "2024-05-02" "AAPL" "2024-06-01" none 2 5 =
      some ⟨.ok tradePage3, [⟨"AAPL", "2024-06-01", none, 2⟩],
        [tradePage3]⟩ ∧
    (⟨.ok tradePage3, [⟨"AAPL", "2024-06-01", none, 2⟩],
      [tradePage3]⟩ : PageRun InsiderTrade).requests.length = 1 ∧
    (⟨.ok tradePage3, [⟨"AAPL", "2024-06-01", none, 2⟩],
      [tradePage3]⟩ : PageRun InsiderTrade).result = .ok tradePage3 := by
  have h := (pagination_stop_conditions
    (fun _ => HTTPResult.resp 200 "" false (.ok tradePage3))
    (fun _ => HTTPResult.resp 200 "" false (.ok []))
    "2024-05-02" "2024-07-01" "AAPL" "2024-06-01" "2024-01-01" 2 5).1
    ⟨.ok tradePage3, [⟨"AAPL", "2024-06-01", none, 2⟩], [tradePage3]⟩
    (by decide)
  exact ⟨by decide, h.1, h.2 tradePage3 rfl⟩

/-! ## Termination of bounded-mode pagination

Go compares the date strings lexicographically (byte-wise `<=` and the
`<` used to find the minimum).  For cursor strings of one fixed length —
as the `YYYY-MM-DD` dates here — lexicographic order coincides with the
numeric order of the strings read as base-`2^32` numerals of their
character codes, which provides the decreasing measure. -/

/-- A character list read as a base-`2^32` numeral of character codes. -/
def listRank : List Char → Nat
  | [] => 0
  | c :: cs => c.toNat * (2 ^ 32) ^ cs.length + listRank cs

/-- A string read as a base-`2^32` numeral of its character codes. -/
def strRank (s : String) : Nat := listRank s.data

lemma char_toNat_lt (c : Char) : c.toNat < 2 ^ 32 :=
  Nat.lt_of_lt_of_le c.val.val.isLt (by norm_num [UInt32.size])

lemma listRank_lt_pow (cs : List Char) :
    listRank cs < (2 ^ 32) ^ cs.length := by
  induction cs with
  | nil => simp [listRank]
  | cons c cs ih =>
    have hc : c.toNat + 1 ≤ 2 ^ 32 := char_toNat_lt c
    calc listRank (c :: cs) = c.toNat * (2 ^ 32) ^ cs.length + listRank cs :=
          rfl
      _ < c.toNat * (2 ^ 32) ^ cs.length + (2 ^ 32) ^ cs.length := by
          omega
      _ = (c.toNat + 1) * (2 ^ 32) ^ cs.length := by ring
      _ ≤ 2 ^ 32 * (2 ^ 32) ^ cs.length :=
          Nat.mul_le_mul_right _ hc
      _ = (2 ^ 32) ^ (c :: cs).length := by
          rw [List.length_cons, pow_succ]
          ring

lemma listRank_lt_of_head_lt (a b : Char) (as bs : List Char)
    (hlen : as.length = bs.length) (hab : a.toNat < b.toNat) :
    listRank (a :: as) < listRank (b :: bs) := by
  have h1 : listRank as < (2 ^ 32) ^ as.length := listRank_lt_pow as
  calc listRank (a :: as) = a.toNat * (2 ^ 32) ^ as.length + listRank as :=
        rfl
    _ < a.toNat * (2 ^ 32) ^ as.length + (2 ^ 32) ^ as.length := by omega
    _ = (a.toNat + 1) * (2 ^ 32) ^ as.length := by ring
    _ ≤ b.toNat * (2 ^ 32) ^ as.length := Nat.mul_le_mul_right _ hab
    _ ≤ b.toNat * (2 ^ 32) ^ bs.length + listRank bs := by rw [hlen]; omega

lemma char_eq_of_not_lt (a b : Char) (h1 : ¬ a < b) (h2 : ¬ b < a) :
    a = b := by
  have ha : ¬ a.toNat < b.toNat := h1
  have hb : ¬ b.toNat < a.toNat := h2
  have hv : a.toNat = b.toNat := by omega
  exact Char.eq_of_val_eq (UInt32.ext hv)

lemma listLt_iff_rank :
    ∀ (l1 l2 : List Char), l1.length = l2.length →
      (l1 < l2 ↔ listRank l1 < listRank l2) := by
  intro l1
  induction l1 with
  | nil =>
    intro l2 hlen
    cases l2 with
    | nil =>
      constructor
      · intro h
        cases h
      · intro h
        simp [listRank] at h
    | cons b bs => cases hlen
  | cons a as ih =>
    intro l2 hlen
    cases l2 with
    | nil => cases hlen
    | cons b bs =>
      have hlen2 : as.length = bs.length := by
        simpa using hlen
      constructor
      · intro h
        cases h with
        | rel hab =>
          exact listRank_lt_of_head_lt a b as bs hlen2 hab
        | cons h3 =>
          have := (ih bs hlen2).mp h3
          unfold listRank
          rw [hlen2]
          omega
      · intro h
        by_cases hab : a < b
        · exact List.Lex.rel hab
        · by_cases hba : b < a
          · exfalso
            have : listRank (b :: bs) < listRank (a :: as) :=
              listRank_lt_of_head_lt b a bs as hlen2.symm hba
            omega
          · rcases char_eq_of_not_lt a b hab hba with rfl
            refine List.Lex.cons ?_
            refine (ih bs hlen2).mpr ?_
            unfold listRank at h
            rw [hlen2] at h
            omega

lemma strLt_iff_rank (s t : String) (h : s.length = t.length) :
    s < t ↔ strRank s < strRank t :=
  String.lt_iff_toList_lt.trans (listLt_iff_rank s.data t.data h)

lemma charListLt_iff : ∀ l1 l2 : List Char,
    charListLt l1 l2 = true ↔ l1 < l2 := by
  intro l1
  induction l1 with
  | nil =>
    intro l2
    cases l2 with
    | nil =>
      constructor
      · intro h
        simp [charListLt] at h
      · intro h
        exact absurd h (List.Lex.not_nil_right _ _)
    | cons b bs =>
      constructor
      · intro _
        exact List.Lex.nil
      · intro _
        rfl
  | cons a as ih =>
    intro l2
    cases l2 with
    | nil =>
      constructor
      · intro h
        simp [charListLt] at h
      · intro h
        exact absurd h (List.Lex.not_nil_right _ _)
    | cons b bs =>
      by_cases hab : a < b
      · constructor
        · intro _
          exact List.Lex.rel hab
        · intro _
          simp [charListLt, hab]
      · by_cases hba : b < a
        · constructor
          · intro h
            simp [charListLt, hab, hba] at h
          · intro h
            exfalso
            cases h with
            | rel h2 => exact hab h2
            | cons h3 => exact absurd hba (lt_irrefl a)
        · have heq : a = b := char_eq_of_not_lt a b hab hba
          subst heq
          constructor
          · intro h
            have h2 : charListLt as bs = true := by
              simpa [charListLt, hab] using h
            exact List.Lex.cons ((ih bs).mp h2)
          · intro h
            have h3 : as < bs := by
              cases h with
              | rel h2 => exact absurd h2 (lt_irrefl a)
              | cons h3 => exact h3
            simpa [charListLt, hab] using (ih bs).mpr h3

lemma goStrLt_iff_rank (s t : String) (h : s.length = t.length) :
    goStrLt s t = true ↔ strRank s < strRank t :=
  (charListLt_iff s.data t.data).trans (listLt_iff_rank s.data t.data h)

/-- Server behavior hypothesized by the termination claim: every
successfully decoded non-empty page has a cursor (minimum record date,
stripped) strictly older than the end-date parameter of the request
that produced it, as a date string of the same length. -/
def pagesStrictlyOlder {α : Type} (dateOf : α → String)
    (oracle : PageRequest → HTTPResult (List α)) : Prop :=
  ∀ req raw page, oracle req = .resp 200 raw false (.ok page) →
    page ≠ [] →
    (pageCursor dateOf page).length = req.dateLte.length ∧
    goStrLt (pageCursor dateOf page) req.dateLte = true

lemma paginateLoop_empty_stops {α : Type} (dateOf : α → String)
    (oracle : PageRequest → HTTPResult (List α)) (ticker : String)
    (sd : Option String) (sds : String) (limit : Nat) :
    ∀ fuel cur acc reqs pages run,
      paginateLoop dateOf oracle ticker sd sds limit fuel cur acc reqs
        pages = some run →
      (∀ p ∈ pages, p ≠ []) →
      ∀ p ∈ run.pages.dropLast, p ≠ [] := by
  intro fuel
  induction fuel with
  | zero =>
    intro cur acc reqs pages run h _
    cases h
  | succ fuel ih =>
    intro cur acc reqs pages run h hinv
    rw [paginateLoop] at h
    revert h
    cases ho : oracle ⟨ticker, cur,
        if sd.isSome then some sds else none, limit⟩ with
    | transportErr =>
      intro h
      cases h
      exact fun p hp => hinv p (List.dropLast_subset _ hp)
    | resp status rawBody readErr decoded =>
      intro h
      dsimp only at h
      by_cases hs : status ≠ 200
      · rw [if_pos hs] at h
        cases h
        exact fun p hp => hinv p (List.dropLast_subset _ hp)
      · rw [if_neg hs] at h
        cases readErr with
        | true =>
          simp only [if_true] at h
          cases h
          exact fun p hp => hinv p (List.dropLast_subset _ hp)
        | false =>
          simp only [Bool.false_eq_true, if_false] at h
          cases decoded with
          | error e =>
            cases h
            exact fun p hp => hinv p (List.dropLast_subset _ hp)
          | ok page =>
            cases page with
            | nil =>
              cases h
              intro p hp
              rw [List.dropLast_concat] at hp
              exact hinv p hp
            | cons x rest =>
              dsimp only at h
              revert h
              cases sd with
              | none =>
                intro h
                simp only [Option.isNone_none, eq_self_iff_true, true_or,
                  if_true] at h
                cases h
                intro p hp
                rw [List.dropLast_concat] at hp
                exact hinv p hp
              | some s2 =>
                intro h
                simp only [Option.isNone_some, Bool.false_eq_true,
                  false_or] at h
                by_cases hlen : (x :: rest).length < limit
                · rw [if_pos hlen] at h
                  cases h
                  intro p hp
                  rw [List.dropLast_concat] at hp
                  exact hinv p hp
                · rw [if_neg hlen] at h
                  by_cases hle : goStrLe (stripTime (minDateOf dateOf x rest)) s2 = true
                  · rw [if_pos hle] at h
                    cases h
                    intro p hp
                    rw [List.dropLast_concat] at hp
                    exact hinv p hp
                  · rw [if_neg hle] at h
                    refine ih _ _ _ _ _ h ?_
                    intro p hp
                    rcases List.mem_append.mp hp with hl | hr
                    · exact hinv p hl
                    · rcases List.mem_singleton.mp hr with rfl
                      exact List.cons_ne_nil x rest

lemma paginateLoop_terminates {α : Type} (dateOf : α → String)
    (oracle : PageRequest → HTTPResult (List α)) (ticker s sds : String)
    (limit : Nat) (hdec : pagesStrictlyOlder dateOf oracle) :
    ∀ fuel cur acc reqs pages, strRank cur + 1 ≤ fuel →
      (paginateLoop dateOf oracle ticker (some s) sds limit fuel cur acc
        reqs pages).isSome := by
  intro fuel
  induction fuel using Nat.strong_induction_on with
  | _ fuel ih =>
    intro cur acc reqs pages hfuel
    cases fuel with
    | zero => omega
    | succ fuel =>
      rw [paginateLoop]
      simp only [Option.isSome_some, Option.isNone_some, eq_self_iff_true,
        if_true, Bool.false_eq_true, false_or]
      cases ho : oracle ⟨ticker, cur, some sds, limit⟩ with
      | transportErr => rfl
      | resp status rawBody readErr decoded =>
        dsimp only
        by_cases hs : status ≠ 200
        · rw [if_pos hs]
          rfl
        · rw [if_neg hs]
          cases readErr with
          | true =>
            simp only [if_true]
            rfl
          | false =>
            simp only [Bool.false_eq_true, if_false]
            cases decoded with
            | error e => rfl
            | ok page =>
              cases page with
              | nil => rfl
              | cons x rest =>
                dsimp only
                by_cases hlen : (x :: rest).length < limit
                · rw [if_pos hlen]
                  rfl
                · rw [if_neg hlen]
                  by_cases hle : goStrLe (stripTime (minDateOf dateOf x rest)) s = true
                  · rw [if_pos hle]
                    rfl
                  · rw [if_neg hle]
                    have hst : status = 200 := by omega
                    subst hst
                    have hd := hdec ⟨ticker, cur, some sds, limit⟩ rawBody
                      (x :: rest) ho (List.cons_ne_nil x rest)
                    have hcur : pageCursor dateOf (x :: rest) =
                        stripTime (minDateOf dateOf x rest) := rfl
                    rw [hcur] at hd
                    have hrank : strRank (stripTime (minDateOf dateOf x rest))
                        < strRank cur :=
                      (goStrLt_iff_rank _ _ hd.1).mp hd.2
                    exact ih fuel (by omega) _ _ _ _ (by omega)

/-- C8: the pagination loop of `GetInsiderTrades` and `GetCompanyNews`
terminates immediately once a page is empty (an empty page is never
followed by another page), and a bounded-mode run against a server whose
non-empty pages always carry a minimum date strictly older than the
requested end date (as equal-length date strings) finishes within
`strRank endDate + 1` page requests. -/
theorem pagination_terminates
    (oT : PageRequest → HTTPResult (List InsiderTrade))
    (oN : PageRequest → HTTPResult (List CompanyNews))
    (nowT nowN ticker endDate s : String) (limit fuel : Nat) :
    (∀ sd run, GetInsiderTrades oT nowT ticker endDate sd limit fuel =
        some run → ∀ p ∈ run.pages.dropLast, p ≠ []) ∧
    (∀ sd run, GetCompanyNews oN nowN ticker endDate sd limit fuel =
        some run → ∀ p ∈ run.pages.dropLast, p ≠ []) ∧
    (pagesStrictlyOlder (·.FilingDate) oT →
      (GetInsiderTrades oT nowT ticker endDate (some s) limit
        (strRank endDate + 1)).isSome) ∧
    (pagesStrictlyOlder (·.DateTime) oN →
      (GetCompanyNews oN nowN ticker endDate (some s) limit
        (strRank endDate + 1)).isSome) := by
  refine ⟨?_, ?_, ?_, ?_⟩
  · intro sd run h
    unfold GetInsiderTrades at h
    exact paginateLoop_empty_stops _ oT ticker sd _ _ fuel endDate [] [] []
      run h (by intro p hp; cases hp)
  · intro sd run h
    unfold GetCompanyNews at h
    exact paginateLoop_empty_stops _ oN ticker sd _ _ fuel endDate [] [] []
      run h (by intro p hp; cases hp)
  · intro hdec
    unfold GetInsiderTrades
    simp only [Option.isNone_some, Bool.false_eq_true, if_false]
    exact paginateLoop_terminates _ oT ticker s "none" _ hdec _ endDate []
      [] [] (by omega)
  · intro hdec
    unfold GetCompanyNews
    simp only [Option.isNone_some, Bool.false_eq_true, if_false]
    exact paginateLoop_terminates _ oN ticker s "none" _ hdec _ endDate []
      [] [] (by omega)

/-- Two-page oracle for the C8 witness: a full one-record page with a
time-of-day component for the initial end date, an empty page for any
other cursor. -/
def tradeOracle2 : PageRequest → HTTPResult (List InsiderTrade) :=
  fun req =>
    if req.dateLte = "2024-06-01" then
      .resp 200 "" false (.ok [sampleTrade "2024-05-01T10:00:00Z"])
    else .resp 200 "" false (.ok [])

/-- Witness for `pagination_terminates`: a bounded run against
`tradeOracle2` with `limit = 1` walks one full page (cursor stripped to
`2024-05-01`), then stops on the empty page; the empty page is last, so
the one non-final page is non-empty, and against an always-empty server
the strictly-older hypothesis holds vacuously and the run completes
within its `strRank`-derived request budget. -/
theorem pagination_terminates_witness :
    GetInsiderTrades tradeOracle2 "2024-05-02" "AAPL" "2024-06-01"
        (some "2024-01-01") 1 5 =
      some ⟨.ok [sampleTrade "2024-05-01T10:00:00Z"],
        [⟨"AAPL", "2024-06-01", some "none", 1⟩,
         ⟨"AAPL", "2024-05-01", some "none", 1⟩],
        [[sampleTrade "2024-05-01T10:00:00Z"], []]⟩ ∧
    [sampleTrade "2024-05-01T10:00:00Z"] ≠ ([] : List InsiderTrade) ∧
    (GetInsiderTrades (fun _ => HTTPResult.resp 200 "" false (.ok []))
      "2024-05-02" "AAPL" "2024-06-01" (some "2024-01-01") 0
      (strRank "2024-06-01" + 1)).isSome = true := by
  refine ⟨by decide, ?_, ?_⟩
  · exact (pagination_terminates tradeOracle2
      (fun _ => HTTPResult.resp 200 "" false (.ok []))
      "2024-05-02" "2024-07-01" "AAPL" "2024-06-01" "2024-01-01" 1 5).1
      (some "2024-01-01")
      ⟨.ok [sampleTrade "2024-05-01T10:00:00Z"],
        [⟨"AAPL", "2024-06-01", some "none", 1⟩,
         ⟨"AAPL", "2024-05-01", some "none", 1⟩],
        [[sampleTrade "2024-05-01T10:00:00Z"], []]⟩
      (by decide) [sampleTrade "2024-05-01T10:00:00Z"] (by decide)
  · exact (pagination_terminates
      (fun _ => HTTPResult.resp 200 "" false (.ok []))
      (fun _ => HTTPResult.resp 200 "" false (.ok []))
      "2024-05-02" "2024-07-01" "AAPL" "2024-06-01" "2024-01-01" 0
      5).2.2.1
      (by
        intro req raw page h hne
        cases h
        exact absurd rfl hne)
